import Mathlib

/-!
Verification of the pysubs2bytes subtitle codecs (SubRip and SubStation formats).

The development shallowly embeds the two source files `pysubs2/subrip.py` and
`pysubs2/substation.py`.  Byte strings are modelled as `List Char` (every byte
is a character of code point < 256; the repository only manipulates ASCII
syntax, payload bytes pass through untouched).  Python exceptions are modelled
with `Except`/`Option`, and the mutable document object is passed as explicit
state.  Helper modules of the repository that are not part of the two source
files (`time.py`, `ssaevent.py`, `ssastyle.py`, `common.py`, the document
container) are modelled from the specification; each such definition carries a
doc comment starting with `Modelled from the spec:`.
-/

set_option maxRecDepth 10000
set_option synthInstance.maxHeartbeats 400000

abbrev Bytes := List Char

namespace pysubs2

/-- ASCII whitespace, the set stripped by Python `bytes.strip()` and matched
by the regex class `\s` over bytes. -/
def pyIsSpace (c : Char) : Bool :=
  c = ' ' || c = '\t' || c = '\n' || c = '\x0d' || c = '\x0b' || c = '\x0c'

/-- Python `bytes.strip()`: remove ASCII whitespace from both ends. -/
def pyStrip (s : Bytes) : Bytes :=
  ((s.dropWhile pyIsSpace).reverse.dropWhile pyIsSpace).reverse

/-- Numeric value of an ASCII digit character. -/
def charDigit (c : Char) : Nat := c.toNat - 48

/-- Value of a most-significant-first digit list. -/
def digitsVal (ds : List Nat) : Nat := ds.foldl (fun a d => 10 * a + d) 0

/-- Decimal digits of `n`, most significant first (fuel-driven so that the
kernel can evaluate it; `natDigits` supplies adequate fuel). -/
def natDigitsAux : Nat → Nat → List Nat
  | 0, _ => []
  | fuel + 1, n => if n < 10 then [n] else natDigitsAux fuel (n / 10) ++ [n % 10]

def natDigits (n : Nat) : List Nat := natDigitsAux (n + 1) n

/-- Digits of `n` left-padded with zeros to width `w`: the digit content of the
Python format specifier `%0wd` applied to a nonnegative integer. -/
def padDigits (w n : Nat) : List Nat :=
  List.replicate (w - (natDigits n).length) 0 ++ natDigits n

/-- Characters of the Python f-string field `{n:0wd}` for a nonnegative `n`. -/
def renderPadded (w n : Nat) : Bytes := (padDigits w n).map Nat.digitChar

/-- Modelled from the spec: `time.make_time` of the missing `time.py`, used by
both codecs only to define the largest representable timestamps
(`make_time(h=100) - 1` and `make_time(h=10) - 10`, which the spec fixes to
359999999 ms and 35999990 ms). -/
def make_time (h : Nat) : Nat := h * 3600000

/-- Modelled from the spec: `time.ms_to_times` of the missing `time.py`,
splitting a nonnegative millisecond count into hours, minutes, seconds and
leftover milliseconds. -/
def ms_to_times (ms : Nat) : Nat × Nat × Nat × Nat :=
  (ms / 3600000, ms % 3600000 / 60000, ms % 60000 / 1000, ms % 1000)

/-- Modelled from the spec: `time.timestamp_to_ms` of the missing `time.py`.
It receives the digit groups captured by one of the two timestamp grammars
(`H:MM:SS.frac` long form, `MM:SS.frac` short fallback form) and converts them
to milliseconds; a fractional group of k digits is scaled by `10 ^ (3 - k)`,
so two digits are centiseconds and three digits are milliseconds. -/
def timestamp_to_ms (groups : List (List Nat)) : Nat :=
  match groups with
  | [h, m, s, frac] =>
      digitsVal h * 3600000 + digitsVal m * 60000 + digitsVal s * 1000 +
        digitsVal frac * 10 ^ (3 - frac.length)
  | [m, s, frac] =>
      digitsVal m * 60000 + digitsVal s * 1000 +
        digitsVal frac * 10 ^ (3 - frac.length)
  | _ => 0

/-- Leading run of ASCII digits of a byte string, returned as digit values
together with the remainder. -/
def takeDigitRun : Bytes → List Nat × Bytes
  | [] => ([], [])
  | c :: cs =>
      if c.isDigit then
        let (ds, r) := takeDigitRun cs
        (charDigit c :: ds, r)
      else ([], c :: cs)

/-- Modelled from the spec: the long timestamp grammar `TIMESTAMP` of the
missing `time.py`, the regex `(\d-{-1,2}):(\d-{-2}):(\d-{-2})[.,](\d-{-2,3})`
(braces spelled with dashes here) matched at the start of the string with
arbitrary trailing content.  Returns the four captured digit groups and the
unconsumed remainder.  The hour group is the whole leading digit run (a run of
three or more digits backtracks onto a digit and fails); the fractional group
takes greedily at most three digits of its run and requires at least two. -/
def timestampLongMatch (s : Bytes) : Option (List (List Nat) × Bytes) :=
  let (hh, s1) := takeDigitRun s
  if hh.length < 1 || 2 < hh.length then none else
  match s1 with
  | ':' :: s2 =>
    let (mm, s3) := takeDigitRun s2
    if mm.length ≠ 2 then none else
    match s3 with
    | ':' :: s4 =>
      let (ss, s5) := takeDigitRun s4
      if ss.length ≠ 2 then none else
      match s5 with
      | c :: s6 =>
        if c = '.' || c = ',' then
          let (ff, s7) := takeDigitRun s6
          if ff.length < 2 then none
          else some ([hh, mm, ss, ff.take 3], (ff.drop 3).map Nat.digitChar ++ s7)
        else none
      | [] => none
    | _ => none
  | _ => none

/-- Modelled from the spec: the short fallback timestamp grammar
`TIMESTAMP_SHORT` of the missing `time.py`, accepting `MM:SS` with a
fractional part: `(\d-{-1,2}):(\d-{-2})[.,](\d-{-2,3})`. -/
def timestampShortMatch (s : Bytes) : Option (List (List Nat) × Bytes) :=
  let (mm, s1) := takeDigitRun s
  if mm.length < 1 || 2 < mm.length then none else
  match s1 with
  | ':' :: s2 =>
    let (ss, s3) := takeDigitRun s2
    if ss.length ≠ 2 then none else
    match s3 with
    | c :: s4 =>
      if c = '.' || c = ',' then
        let (ff, s5) := takeDigitRun s4
        if ff.length < 2 then none
        else some ([mm, ss, ff.take 3], (ff.drop 3).map Nat.digitChar ++ s5)
      else none
    | [] => none
  | _ => none

namespace SubstationFormat

/-- `substation.MAX_REPRESENTABLE_TIME`: largest timestamp allowed in
SubStation, i.e. 9:59:59.99. -/
def MAX_REPRESENTABLE_TIME : Nat := make_time 10 - 10

/-- `SubstationFormat.ms_to_timestamp`: convert ms to `H:MM:SS.cc`.  Negative
input is clamped to 0, input above `MAX_REPRESENTABLE_TIME` is clamped to the
maximum (with a runtime warning, not modelled).  The centisecond field is the
half-up rounding of the leftover milliseconds of `ms_to_times`, computed after
the hour/minute/second split, and is rendered with the f-string field
`-{-cs:02d-}-`. -/
def ms_to_timestamp (ms : Int) : Bytes :=
  let ms1 : Int := if ms < 0 then 0 else ms
  let ms2 : Int := if ms1 > (MAX_REPRESENTABLE_TIME : Int) then (MAX_REPRESENTABLE_TIME : Int) else ms1
  let (h, m, s, msr) := ms_to_times ms2.toNat
  let cs := ((msr + 5) - (msr + 5) % 10) / 10
  renderPadded 1 h ++ ':' :: renderPadded 2 m ++ ':' :: renderPadded 2 s ++ '.' :: renderPadded 2 cs

end SubstationFormat

namespace SubripFormat

/-- `subrip.MAX_REPRESENTABLE_TIME`: largest timestamp allowed in SubRip,
i.e. 99:59:59,999. -/
def MAX_REPRESENTABLE_TIME : Nat := make_time 100 - 1

/-- `SubripFormat.ms_to_timestamp`: convert ms to `HH:MM:SS,mmm` with the
same clamping policy as the SubStation codec. -/
def ms_to_timestamp (ms : Int) : Bytes :=
  let ms1 : Int := if ms < 0 then 0 else ms
  let ms2 : Int := if ms1 > (MAX_REPRESENTABLE_TIME : Int) then (MAX_REPRESENTABLE_TIME : Int) else ms1
  let (h, m, s, msr) := ms_to_times ms2.toNat
  renderPadded 2 h ++ ':' :: renderPadded 2 m ++ ':' :: renderPadded 2 s ++ ',' :: renderPadded 3 msr

end SubripFormat


/-! ## Document model

The document container, event, style, color and alignment types live in
modules of the repository that are not part of the two source files under
verification; they are modelled from the specification (§3, §6). -/

/-- Python dictionary insertion on an insertion-ordered association list:
an existing key keeps its position and gets the new value, a fresh key is
appended at the end. -/
def dictSet [BEq α] : List (α × β) → α → β → List (α × β)
  | [], k, v => [(k, v)]
  | (k', v') :: d, k, v =>
      if k' == k then (k', v) :: d else (k', v') :: dictSet d k v

/-- Python dictionary lookup on an association list. -/
def dictGet? [BEq α] : List (α × β) → α → Option β
  | [], _ => none
  | (k', v') :: d, k => if k' == k then some v' else dictGet? d k

/-- Python dictionary membership. -/
def dictMem [BEq α] (d : List (α × β)) (k : α) : Bool := (dictGet? d k).isSome

/-- Modelled from the spec: a Python dictionary key of the metadata mappings.
Parsed keys are byte strings, but `SubstationFormat.to_file` inserts the
`str` key `"ScriptType"`; in Python 3 a `str` key and a `bytes` key never
compare equal, so the two kinds are kept apart. -/
inductive PyKey where
  | bytesK (s : Bytes)
  | strK (s : Bytes)
deriving DecidableEq

/-- Modelled from the spec: the `Color` value type of the missing `common.py`,
a 4-tuple (r, g, b, a) of bytes (§3). -/
structure Color where
  r : Nat
  g : Nat
  b : Nat
  a : Nat
deriving DecidableEq

/-- Modelled from the spec: the 9-value `Alignment` enum of the missing
`common.py` (§3), carried as its numeric SubStation value 1-9. -/
structure Alignment where
  val : Nat
deriving DecidableEq

/-- Modelled from the spec: the legacy SSA alignment code table
`SSA_ALIGNMENT` of the missing `common.py`, indexed by numbered alignment
minus one (§3: a lossy mapping to/from the legacy numeric scheme). -/
def SSA_ALIGNMENT : List Nat := [1, 2, 3, 5, 6, 7, 9, 10, 11]

/-- Modelled from the spec: `Alignment.from_ssa_alignment`; an unknown legacy
code raises, which the caller turns into the bottom-center default. -/
def Alignment.from_ssa_alignment (n : Int) : Option Alignment :=
  match SSA_ALIGNMENT.indexOf? n.toNat with
  | some i => if 0 ≤ n then some ⟨i + 1⟩ else none
  | none => none

/-- Modelled from the spec: `Alignment(i)`, the enum constructor; valid values
are 1-9, anything else raises. -/
def Alignment.ofNumbered (n : Int) : Option Alignment :=
  if 1 ≤ n && n ≤ 9 then some ⟨n.toNat⟩ else none

/-- Modelled from the spec: the style record of the missing `ssastyle.py`
(§3): font name/size, four colors, boolean toggles, geometry, alignment,
margins, encoding, plus the drawing-mode flag toggled by override tags.
Numeric Python floats are carried as rationals. -/
structure SSAStyle where
  fontname : Bytes
  fontsize : Rat
  primarycolor : Color
  secondarycolor : Color
  outlinecolor : Color
  backcolor : Color
  bold : Bool
  italic : Bool
  underline : Bool
  strikeout : Bool
  scalex : Rat
  scaley : Rat
  spacing : Rat
  angle : Rat
  borderstyle : Int
  outline : Rat
  shadow : Rat
  alignment : Alignment
  marginl : Int
  marginr : Int
  marginv : Int
  alphalevel : Int
  encoding : Int
  drawing : Bool
deriving DecidableEq

/-- Modelled from the spec: `SSAStyle.DEFAULT_STYLE` (§3), the well-known
fallback style; all boolean toggles and drawing mode are off. -/
def SSAStyle.DEFAULT_STYLE : SSAStyle :=
  { fontname := ("Arial").data
    fontsize := 20
    primarycolor := ⟨255, 255, 255, 0⟩
    secondarycolor := ⟨255, 0, 0, 0⟩
    outlinecolor := ⟨0, 0, 0, 0⟩
    backcolor := ⟨0, 0, 0, 0⟩
    bold := false
    italic := false
    underline := false
    strikeout := false
    scalex := 100
    scaley := 100
    spacing := 0
    angle := 0
    borderstyle := 1
    outline := 2
    shadow := 2
    alignment := ⟨2⟩
    marginl := 10
    marginr := 10
    marginv := 10
    alphalevel := 0
    encoding := 1
    drawing := false }

/-- Modelled from the spec: the subtitle event record of the missing
`ssaevent.py` (§3).  The source attribute `end` is spelled `end_` (Lean
keyword); `type` is `Dialogue` or `Comment`. -/
structure SSAEvent where
  start : Int
  end_ : Int
  layer : Int
  marked : Bool
  style : Bytes
  name : Bytes
  marginl : Int
  marginr : Int
  marginv : Int
  effect : Bytes
  text : Bytes
  type : Bytes
deriving DecidableEq

/-- Modelled from the spec: a freshly constructed event, before keyword
fields are applied. -/
def SSAEvent.default : SSAEvent :=
  { start := 0, end_ := 10000, layer := 0, marked := false
    style := ("Default").data, name := [], marginl := 0, marginr := 0
    marginv := 0, effect := [], text := [], type := ("Dialogue").data }

/-- Modelled from the spec: the derived comment predicate of an event. -/
def SSAEvent.is_comment (e : SSAEvent) : Bool := e.type == ("Comment").data

instance : Inhabited Color := ⟨⟨0, 0, 0, 0⟩⟩

instance : Inhabited Alignment := ⟨⟨2⟩⟩

instance : Inhabited SSAStyle := ⟨SSAStyle.DEFAULT_STYLE⟩

instance : Inhabited SSAEvent := ⟨SSAEvent.default⟩

/-- Modelled from the spec: the document container (§3, §6) consumed and
produced by both codecs: ordered event sequence, insertion-ordered style
mapping, two metadata mappings and the two attachment mappings (named
fonts_opaque and graphics_opaque in the source). -/
structure SSAFile where
  info : List (PyKey × Bytes)
  aegisub_project : List (PyKey × Bytes)
  styles : List (Bytes × SSAStyle)
  fonts_attachments : List (Bytes × List Bytes)
  graphics_attachments : List (Bytes × List Bytes)
  events : List SSAEvent
deriving DecidableEq

/-- Modelled from the spec: a document constructed empty. -/
def SSAFile.empty : SSAFile :=
  { info := [], aegisub_project := [], styles := [], fonts_attachments := []
    graphics_attachments := [], events := [] }

/-- The two SubStation dialects selecting field lists and section names. -/
inductive SSAFmt where
  | ass
  | ssa
deriving DecidableEq


/-! ## Override-tag engine (`substation.parse_tags`) -/

/-- Python `int()` digit-string payload: decimal value of a nonempty
all-digit byte string. -/
def parseDigitsVal : Bytes -> Option Nat
  | [] => none
  | ds =>
      if ds.all Char.isDigit then some (digitsVal (ds.map charDigit)) else none

/-- Python `int(v)` on a byte string: surrounding ASCII whitespace is
ignored, an optional sign precedes a nonempty digit run; anything else
raises `ValueError` (`none`). -/
def pyInt (s : Bytes) : Option Int :=
  match pyStrip s with
  | '-' :: ds => (parseDigitsVal ds).map (fun n => -(n : Int))
  | '+' :: ds => (parseDigitsVal ds).map (fun n => (n : Int))
  | ds => (parseDigitsVal ds).map (fun n => (n : Int))

/-- Characters allowed in the style name of a `\r` override tag: the regex
class `[a-zA-Z_0-9 ]`. -/
def isTagNameChar (c : Char) : Bool :=
  c.isAlpha || c.isDigit || c = '_' || c = ' '

/-- Leftmost match of the override-tag regex
`\\[ibusp][0-9]|\r[a-zA-Z_0-9 ]*` at the start of the string: either a
backslash, one of `ibusp` and one digit, or `\r` followed by the longest run
of name characters.  Returns the matched tag and the remainder. -/
def matchOverrideTag : Bytes -> Option (Bytes × Bytes)
  | c0 :: c :: rest =>
      if c0 = '\\' then
        if c = 'i' || c = 'b' || c = 'u' || c = 's' || c = 'p' then
          match rest with
          | d :: restTl => if d.isDigit then some (['\\', c, d], restTl) else none
          | [] => none
        else if c = 'r' then
          some ('\\' :: 'r' :: rest.takeWhile isTagNameChar,
            rest.dropWhile isTagNameChar)
        else none
      else none
  | _ => none

/-- `re.findall` of the override-tag regex: scan left to right, taking the
leftmost non-overlapping matches and advancing one byte where nothing
matches.  Fuel-driven; `findTags` supplies the exact fuel. -/
def findTagsAux : Nat -> Bytes -> List Bytes
  | 0, _ => []
  | fuel + 1, s =>
      match s with
      | [] => []
      | c :: cs =>
          match matchOverrideTag (c :: cs) with
          | some (tag, rest) => tag :: findTagsAux fuel rest
          | none => findTagsAux fuel cs

def findTags (s : Bytes) : List Bytes := findTagsAux s.length s

/-- Split a byte string at its first `\x7d` (closing brace), if any. -/
def findClose : Bytes -> Option (Bytes × Bytes)
  | [] => none
  | c :: cs =>
      if c = '\x7d' then some ([], cs)
      else
        match findClose cs with
        | some (body, rest) => some (c :: body, rest)
        | none => none

/-- Modelled from the spec: the override-sequence pattern
`SSAEvent.OVERRIDE_SEQUENCE` of the missing `ssaevent.py` - brace-enclosed
tag groups (regex `\x7b[^\x7d]*\x7d`).  One scan yields both `re.split`
(the fragments around the non-overlapping matches, empty pieces included)
and `re.findall` (the matched sequences, braces included).  An opening
brace without a closing brace matches nothing and stays in the fragment.
Fuel-driven; `OVERRIDE_SEQUENCE_split` supplies the exact fuel. -/
def splitOvAux : Nat -> Bytes -> List Bytes × List Bytes
  | 0, s => ([s], [])
  | fuel + 1, s =>
      match s with
      | [] => ([[]], [])
      | c :: cs =>
          if c = '\x7b' then
            match findClose cs with
            | some (body, rest) =>
                let (frags, ovs) := splitOvAux fuel rest
                ([] :: frags, ('\x7b' :: body ++ ['\x7d']) :: ovs)
            | none => ([c :: cs], [])
          else
            match splitOvAux fuel cs with
            | (f :: fs, ovs) => ((c :: f) :: fs, ovs)
            | ([], ovs) => ([[c]], ovs)

def OVERRIDE_SEQUENCE_split (text : Bytes) : List Bytes × List Bytes :=
  splitOvAux text.length text

/-- Shape of every override sequence found by `OVERRIDE_SEQUENCE_split`: an
opening brace, a body free of closing braces, and the closing brace. -/
def WellBraced (o : Bytes) : Prop :=
  ∃ body, o = '\x7b' :: body ++ ['\x7d'] ∧ '\x7d' ∉ body

/-- One iteration of the tag loop inside `parse_tags.apply_overrides`: a bare
`\r` resets to the original line style, `\r<name>` resets to the named style
when present in the style table (and does nothing otherwise), and the
three-byte boolean/drawing tags update one flag.  The source tests tag bytes
by membership (`b"i" in tag`) in the if/elif order i, b, u, s, p, and parses
the drawing scale with `int(tag[2:])`, skipping the tag on `ValueError`. -/
def applyOverrideTag (style : SSAStyle) (styles : List (Bytes × SSAStyle))
    (s : SSAStyle) (tag : Bytes) : SSAStyle :=
  if tag = ['\\', 'r'] then style
  else if tag.take 2 = ['\\', 'r'] then
    match dictGet? styles (tag.drop 2) with
    | some sty => sty
    | none => s
  else if tag.contains 'i' then { s with italic := tag.contains '1' }
  else if tag.contains 'b' then { s with bold := tag.contains '1' }
  else if tag.contains 'u' then { s with underline := tag.contains '1' }
  else if tag.contains 's' then { s with strikeout := tag.contains '1' }
  else if tag.contains 'p' then
    match pyInt (tag.drop 2) with
    | some scale => { s with drawing := scale > 0 }
    | none => s
  else s

/-- `parse_tags.apply_overrides`: fold every tag found in the joined override
sequences over a fresh copy of the line style. -/
def apply_overrides (style : SSAStyle) (styles : List (Bytes × SSAStyle))
    (all_overrides : Bytes) : SSAStyle :=
  (findTags all_overrides).foldl (applyOverrideTag style styles) style

/-- `substation.parse_tags`: split text into fragments with computed styles.
Fragment i is paired with the style obtained by applying the concatenation
of the first i override sequences (`b"".join(overrides[:i])`) to a fresh
copy of the base style. -/
def parse_tags (text : Bytes) (style : SSAStyle)
    (styles : List (Bytes × SSAStyle)) : List (Bytes × SSAStyle) :=
  let fragments := (OVERRIDE_SEQUENCE_split text).1
  if fragments.length = 1 then [(text, style)]
  else
    let overrides := (OVERRIDE_SEQUENCE_split text).2
    let overrides_prefix_sum :=
      (List.range (overrides.length + 1)).map (fun i => (overrides.take i).flatten)
    let computed_styles := overrides_prefix_sum.map (apply_overrides style styles)
    fragments.zip computed_styles


/-! ## SubStation field coercion (`SubstationFormat.from_file.string_to_field`) -/

/-- Decidable equality of `Except` results (used only to state and decide
concrete evaluations). -/
instance instDecEqExcept {a b : Type} [DecidableEq a] [DecidableEq b] :
    DecidableEq (Except a b) := fun x y =>
  match x, y with
  | .ok v, .ok w =>
      if h : v = w then .isTrue (by rw [h])
      else .isFalse (by intro hh; cases hh; exact h rfl)
  | .error v, .error w =>
      if h : v = w then .isTrue (by rw [h])
      else .isFalse (by intro hh; cases hh; exact h rfl)
  | .ok _, .error _ => .isFalse (by intro hh; cases hh)
  | .error _, .ok _ => .isFalse (by intro hh; cases hh)

/-- Whether `needle` occurs contiguously inside `hay` (Python `in` on byte
strings). -/
def containsSeq (needle : Bytes) : Bytes → Bool
  | [] => needle.isPrefixOf []
  | c :: cs => needle.isPrefixOf (c :: cs) || containsSeq needle cs

/-- A coerced SubStation field value: the union of Python types produced by
`string_to_field` and consumed by `field_to_string`. -/
inductive FieldVal where
  | int (n : Int)
  | flt (q : Rat)
  | bool (b : Bool)
  | bytes (s : Bytes)
  | color (c : Color)
  | alignment (a : Alignment)
deriving DecidableEq

/-- Python exceptions raised by the two codecs. -/
inductive PyErr where
  | valueError
  | typeError
  | indexError
  | contentNotUsable
  | notImplementedError
deriving DecidableEq

/-- Hexadecimal digit value. -/
def charHexDigit (c : Char) : Option Nat :=
  if c.isDigit then some (charDigit c)
  else if 'a' <= c && c <= 'f' then some (c.toNat - 87)
  else if 'A' <= c && c <= 'F' then some (c.toNat - 55)
  else none

/-- Python `int(v, base=16)` on a byte string: surrounding whitespace
ignored, optional sign, nonempty hexadecimal digit run (the optional `0x`
prefix Python also accepts never occurs in SubStation color fields and is
not modelled). -/
def pyIntHex (s : Bytes) : Option Int :=
  let core : Bytes -> Option Nat := fun ds =>
    match ds.mapM charHexDigit with
    | some vs => if vs = [] then none else some (vs.foldl (fun a d => 16 * a + d) 0)
    | none => none
  match pyStrip s with
  | '-' :: ds => (core ds).map (fun n => -(n : Int))
  | '+' :: ds => (core ds).map (fun n => (n : Int))
  | ds => (core ds).map (fun n => (n : Int))

/-- Python `float(v)` on a byte string: whitespace, optional sign, decimal
digits with an optional fractional part and an optional decimal exponent,
at least one digit overall.  The value is carried exactly as a rational
(IEEE rounding of the Python float is irrelevant to every claim; `inf`/`nan`
spellings are not modelled). -/
def pyFloat (s : Bytes) : Option Rat :=
  let (sign, t) : Rat × Bytes :=
    match pyStrip s with
    | '-' :: rest => (-1, rest)
    | '+' :: rest => (1, rest)
    | rest => (1, rest)
  let ip := t.takeWhile Char.isDigit
  let t1 := t.dropWhile Char.isDigit
  let (fp, t2) : List Char × Bytes :=
    match t1 with
    | '.' :: rest => (rest.takeWhile Char.isDigit, rest.dropWhile Char.isDigit)
    | _ => ([], t1)
  if ip.length + fp.length = 0 then none else
  let mant : Rat :=
    (digitsVal (ip.map charDigit) : Rat) +
      (digitsVal (fp.map charDigit) : Rat) / ((10 : Rat) ^ fp.length)
  match t2 with
  | [] => some (sign * mant)
  | e :: rest =>
      if e = 'e' || e = 'E' then
        let (esign, r1) : Bool × Bytes :=
          match rest with
          | '-' :: r => (true, r)
          | '+' :: r => (false, r)
          | r => (false, r)
        if r1 ≠ [] && r1.all Char.isDigit then
          let k := digitsVal (r1.map charDigit)
          some (sign * mant * (if esign then ((10 : Rat) ^ k)⁻¹ else (10 : Rat) ^ k))
        else none
      else none

/-- `substation.rgba_to_color`: a field starting with `&` is `&H`-prefixed
hexadecimal, anything else is decimal; the packed integer is split into
r, g, b, a bytes with Python's floor shifts and masks.  An empty field
raises `IndexError` on `s[0]`; unparseable digits raise `ValueError`. -/
def rgba_to_color (s : Bytes) : Except PyErr Color :=
  match s with
  | [] => .error .indexError
  | c :: _ =>
      let xOpt : Option Int := if c = '&' then pyIntHex (s.drop 2) else pyInt s
      match xOpt with
      | none => .error .valueError
      | some x =>
          .ok ⟨(x.emod 256).toNat, ((x.fdiv 256).emod 256).toNat,
               ((x.fdiv 65536).emod 256).toNat, ((x.fdiv 16777216).emod 256).toNat⟩

/-- `substation.is_valid_field_content`: no newline or comma. -/
def is_valid_field_content (s : Bytes) : Bool :=
  !(s.contains '\n') && !(s.contains ',')

/-- Modelled from the spec: applying one keyword argument of
`SSAStyle(**field_dict)`; the spec (§3) treats outline and tertiary color as
one slot.  Field/value type mismatches cannot arise from `string_to_field`. -/
def SSAStyle.setField (sty : SSAStyle) (f : String) (v : FieldVal) : SSAStyle :=
  match f, v with
  | "fontname", .bytes b => { sty with fontname := b }
  | "fontsize", .flt q => { sty with fontsize := q }
  | "primarycolor", .color c => { sty with primarycolor := c }
  | "secondarycolor", .color c => { sty with secondarycolor := c }
  | "tertiarycolor", .color c => { sty with outlinecolor := c }
  | "outlinecolor", .color c => { sty with outlinecolor := c }
  | "backcolor", .color c => { sty with backcolor := c }
  | "bold", .bool b => { sty with bold := b }
  | "italic", .bool b => { sty with italic := b }
  | "underline", .bool b => { sty with underline := b }
  | "strikeout", .bool b => { sty with strikeout := b }
  | "scalex", .flt q => { sty with scalex := q }
  | "scaley", .flt q => { sty with scaley := q }
  | "spacing", .flt q => { sty with spacing := q }
  | "angle", .flt q => { sty with angle := q }
  | "borderstyle", .int n => { sty with borderstyle := n }
  | "outline", .flt q => { sty with outline := q }
  | "shadow", .flt q => { sty with shadow := q }
  | "alignment", .alignment a => { sty with alignment := a }
  | "marginl", .int n => { sty with marginl := n }
  | "marginr", .int n => { sty with marginr := n }
  | "marginv", .int n => { sty with marginv := n }
  | "alphalevel", .int n => { sty with alphalevel := n }
  | "encoding", .int n => { sty with encoding := n }
  | _, _ => sty

/-- Modelled from the spec: applying one keyword argument of
`SSAEvent(**field_dict)`. -/
def SSAEvent.setField (ev : SSAEvent) (f : String) (v : FieldVal) : SSAEvent :=
  match f, v with
  | "start", .int n => { ev with start := n }
  | "end", .int n => { ev with end_ := n }
  | "layer", .int n => { ev with layer := n }
  | "marked", .bool b => { ev with marked := b }
  | "style", .bytes b => { ev with style := b }
  | "name", .bytes b => { ev with name := b }
  | "marginl", .int n => { ev with marginl := n }
  | "marginr", .int n => { ev with marginr := n }
  | "marginv", .int n => { ev with marginv := n }
  | "effect", .bytes b => { ev with effect := b }
  | "text", .bytes b => { ev with text := b }
  | _, _ => ev

/-- `substation.STYLE_FIELDS`. -/
def STYLE_FIELDS : SSAFmt -> List String
  | .ass => ["fontname", "fontsize", "primarycolor", "secondarycolor",
      "outlinecolor", "backcolor", "bold", "italic", "underline", "strikeout",
      "scalex", "scaley", "spacing", "angle", "borderstyle", "outline",
      "shadow", "alignment", "marginl", "marginr", "marginv", "encoding"]
  | .ssa => ["fontname", "fontsize", "primarycolor", "secondarycolor",
      "tertiarycolor", "backcolor", "bold", "italic", "borderstyle",
      "outline", "shadow", "alignment", "marginl", "marginr", "marginv",
      "alphalevel", "encoding"]

/-- `substation.EVENT_FIELDS`. -/
def EVENT_FIELDS : SSAFmt -> List String
  | .ass => ["layer", "start", "end", "style", "name", "marginl", "marginr",
      "marginv", "effect", "text"]
  | .ssa => ["marked", "start", "end", "style", "name", "marginl", "marginr",
      "marginv", "effect", "text"]

/-- `SubstationFormat.from_file.string_to_field`: coerce one raw field by
field name.  `start`/`end` strip whitespace, accept an optional leading `-`
sign, try the long then the short timestamp grammar and negate on sign;
color fields strip and parse packed colors; boolean style flags compare with
`-1`; the listed integer and float fields parse numerically; `marked` tests
the last byte; `alignment` decodes per dialect falling back to bottom-center
on any failure; `fontname` strips; every other field passes through. -/
def string_to_field (format_ : SSAFmt) (f : String) (v : Bytes) :
    Except PyErr FieldVal :=
  if f = "start" || f = "end" then
    let (sign, v2) : Int × Bytes :=
      match pyStrip v with
      | '-' :: rest => (-1, rest)
      | w => (1, w)
    match timestampLongMatch v2 with
    | some (g, _) => .ok (.int (sign * (timestamp_to_ms g : Int)))
    | none =>
        match timestampShortMatch v2 with
        | some (g, _) => .ok (.int (sign * (timestamp_to_ms g : Int)))
        | none => .error .valueError
  else if containsSeq (("color").data) f.data then
    match rgba_to_color (pyStrip v) with
    | .ok c => .ok (.color c)
    | .error e => .error e
  else if f = "bold" || f = "underline" || f = "italic" || f = "strikeout" then
    .ok (.bool (v = ("-1").data))
  else if f = "borderstyle" || f = "encoding" || f = "marginl" ||
      f = "marginr" || f = "marginv" || f = "layer" || f = "alphalevel" then
    match pyInt v with
    | some n => .ok (.int n)
    | none => .error .valueError
  else if f = "fontsize" || f = "scalex" || f = "scaley" || f = "spacing" ||
      f = "angle" || f = "outline" || f = "shadow" then
    match pyFloat v with
    | some q => .ok (.flt q)
    | none => .error .valueError
  else if f = "marked" then
    .ok (.bool ((("1").data).isSuffixOf v))
  else if f = "alignment" then
    match format_ with
    | .ass =>
        match pyInt v with
        | some n =>
            match Alignment.ofNumbered n with
            | some a => .ok (.alignment a)
            | none => .ok (.alignment ⟨2⟩)
        | none => .ok (.alignment ⟨2⟩)
    | .ssa =>
        match pyInt v with
        | some n =>
            match Alignment.from_ssa_alignment n with
            | some a => .ok (.alignment a)
            | none => .ok (.alignment ⟨2⟩)
        | none => .ok (.alignment ⟨2⟩)
  else if f = "fontname" then .ok (.bytes (pyStrip v))
  else .ok (.bytes v)


/-! ## SubStation parser (`SubstationFormat.from_file`) -/

/-- Python `bytes.split(sep, 1)` when it yields two pieces: split at the
first occurrence of `sep`; `none` when `sep` does not occur (the source
catches the resulting unpack `ValueError` where it can happen). -/
def pySplitOnce (sep : Char) : Bytes -> Option (Bytes × Bytes)
  | [] => none
  | c :: cs =>
      if c = sep then some ([], cs)
      else (pySplitOnce sep cs).map (fun p => (c :: p.1, p.2))

/-- Python `bytes.split(sep)`: split at every occurrence of `sep`. -/
def pySplitAll (sep : Char) : Bytes -> List Bytes
  | [] => [[]]
  | c :: cs =>
      if c = sep then [] :: pySplitAll sep cs
      else
        match pySplitAll sep cs with
        | f :: fs => (c :: f) :: fs
        | [] => [[c]]

/-- Python `bytes.split(sep, maxsplit)`: split at the first `maxsplit`
occurrences of `sep`, keeping the remainder whole. -/
def pySplitN (sep : Char) : Nat -> Bytes -> List Bytes
  | _, [] => [[]]
  | 0, s => [s]
  | n + 1, c :: cs =>
      if c = sep then [] :: pySplitN sep n cs
      else
        match pySplitN sep (n + 1) cs with
        | f :: fs => (c :: f) :: fs
        | [] => [[c]]

/-- One position of `substation.SECTION_HEADING`: an opening square bracket
whose bracketed content (everything up to the first closing bracket, which
must exist) contains at least one ASCII lowercase letter - the guard against
uuencoded font data. -/
def sectionHeadingAt (s : Bytes) : Bool :=
  match s with
  | '[' :: rest =>
      let body := rest.takeWhile (fun c => c ≠ ']')
      let rest2 := rest.dropWhile (fun c => c ≠ ']')
      (match rest2 with
       | ']' :: _ => true
       | _ => false) && body.any (fun c => 'a' ≤ c && c ≤ 'z')
  | _ => false

/-- `substation.SECTION_HEADING` matched at the start of a line: up to three
arbitrary non-newline bytes (BOM tolerance) may precede the bracket. -/
def SECTION_HEADING_match (line : Bytes) : Bool :=
  (List.range 4).any (fun k =>
    (line.take k).all (fun c => c ≠ '\n') && sectionHeadingAt (line.drop k))

/-- `substation.ATTACHMENT_FILE_HEADING` matched at the start of a line:
`fontname:` or `filename:`, at least one whitespace byte, then the attachment
name (a nonempty run of non-whitespace bytes). -/
def ATTACHMENT_FILE_HEADING_match (line : Bytes) : Option Bytes :=
  let after : Option Bytes :=
    if (("fontname:").data).isPrefixOf line then some (line.drop 9)
    else if (("filename:").data).isPrefixOf line then some (line.drop 9)
    else none
  match after with
  | none => none
  | some r =>
      if r.takeWhile pyIsSpace = [] then none
      else
        let name := (r.dropWhile pyIsSpace).takeWhile (fun c => !(pyIsSpace c))
        if name = [] then none else some name

/-- Coerce the zipped (field name, raw value) pairs left to right, stopping
at the first exception - the evaluation order of the dict comprehension
`-{-f: string_to_field(f, v) for f, v in zip(FIELDS, raw_fields)-}-`. -/
def coerceFields (format_ : SSAFmt) (names : List String) (raw : List Bytes) :
    Except PyErr (List (String × FieldVal)) :=
  (names.zip raw).mapM (fun p => (string_to_field format_ p.1 p.2).map (fun fv => (p.1, fv)))

/-- The mutable state of the `SubstationFormat.from_file` line loop: the
document being populated, the active-section flags and the attachment
accumulator. -/
structure PState where
  doc : SSAFile
  inside_info_section : Bool
  inside_aegisub_section : Bool
  inside_font_section : Bool
  inside_graphic_section : Bool
  current_attachment_name : Option Bytes
  current_attachment_lines_buffer : List Bytes
  current_attachment_is_font : Option Bool
deriving DecidableEq

/-- State at loop entry: the five mappings of the document are cleared
(`subs.info.clear()` etc.), the event sequence is left as it is, all section
flags are down and no attachment is open. -/
def initState (subs : SSAFile) : PState :=
  { doc :=
      { subs with
        info := [], aegisub_project := [], styles := [],
        fonts_attachments := [], graphics_attachments := [] },
    inside_info_section := false,
    inside_aegisub_section := false,
    inside_font_section := false,
    inside_graphic_section := false,
    current_attachment_name := none,
    current_attachment_lines_buffer := [],
    current_attachment_is_font := none }

/-- One iteration of the `for lineno, line in enumerate(fp, 1)` loop of
`SubstationFormat.from_file`.  The raw line is stripped; a section heading
re-aims the four flags by substring tests; inside Info/Aegisub sections
`;`-comments are skipped and `key: value` pairs are stored (lines without a
colon are silently ignored); inside Fonts/Graphics sections attachment
buffers are flushed and accumulated; `Style:` lines and `Dialogue:` /
`Comment:` lines are split into fields, coerced and stored.  Exceptions
escape before any document mutation of the offending line. -/
def processLine (format_ : SSAFmt) (st : PState) (raw : Bytes) :
    Except PyErr PState :=
  let line := pyStrip raw
  if SECTION_HEADING_match line then
    .ok { st with
      inside_info_section := containsSeq (("Info").data) line,
      inside_aegisub_section := containsSeq (("Aegisub").data) line,
      inside_font_section := containsSeq (("Fonts").data) line,
      inside_graphic_section := containsSeq (("Graphics").data) line }
  else if st.inside_info_section || st.inside_aegisub_section then
    if ((";").data).isPrefixOf line then .ok st
    else
      match pySplitOnce ':' line with
      | some (k, v) =>
          if st.inside_info_section then
            .ok { st with doc :=
              { st.doc with
                info := dictSet st.doc.info (.bytesK k) (pyStrip v) } }
          else
            .ok { st with doc :=
              { st.doc with
                aegisub_project :=
                  dictSet st.doc.aegisub_project (.bytesK k) (pyStrip v) } }
      | none => .ok st
  else if st.inside_font_section || st.inside_graphic_section then
    let m := ATTACHMENT_FILE_HEADING_match line
    let st0 := { st with current_attachment_is_font := some st.inside_font_section }
    let flushed : Except PyErr PState :=
      match st0.current_attachment_name with
      | some nm =>
          if m.isSome || line = [] then
            if st0.inside_font_section then
              .ok
                { st0 with
                  doc :=
                    { st0.doc with
                      fonts_attachments :=
                        dictSet st0.doc.fonts_attachments nm
                          st0.current_attachment_lines_buffer },
                  current_attachment_lines_buffer := [],
                  current_attachment_name := none }
            else if st0.inside_graphic_section then
              .ok
                { st0 with
                  doc :=
                    { st0.doc with
                      graphics_attachments :=
                        dictSet st0.doc.graphics_attachments nm
                          st0.current_attachment_lines_buffer },
                  current_attachment_lines_buffer := [],
                  current_attachment_name := none }
            else .error .notImplementedError
          else .ok st0
      | none => .ok st0
    match flushed with
    | .error e => .error e
    | .ok st1 =>
        match m with
        | some nm => .ok { st1 with current_attachment_name := some nm }
        | none =>
            if line ≠ [] then
              .ok
              { st1 with
                current_attachment_lines_buffer :=
                  st1.current_attachment_lines_buffer ++ [line] }
            else .ok st1
  else if (("Style:").data).isPrefixOf line then
    let rest := line.drop 6
    match pySplitAll ',' (pyStrip rest) with
    | [] => .ok st
    | name :: raw_fields =>
        match coerceFields format_ (STYLE_FIELDS format_) raw_fields with
        | .error e => .error e
        | .ok pairs =>
            let sty := pairs.foldl (fun s p => SSAStyle.setField s p.1 p.2)
              SSAStyle.DEFAULT_STYLE
            .ok { st with doc := { st.doc with styles := dictSet st.doc.styles name sty } }
  else if (("Dialogue:").data).isPrefixOf line || (("Comment:").data).isPrefixOf line then
    match pySplitOnce ':' line with
    | none => .ok st
    | some (ev_type, rest) =>
        let raw_fields := pySplitN ',' ((EVENT_FIELDS format_).length - 1) (pyStrip rest)
        match coerceFields format_ (EVENT_FIELDS format_) raw_fields with
        | .error e => .error e
        | .ok pairs =>
            let ev0 := pairs.foldl (fun e p => SSAEvent.setField e p.1 p.2) SSAEvent.default
            let ev := { ev0 with type := ev_type }
            .ok { st with doc := { st.doc with events := st.doc.events ++ [ev] } }
  else .ok st

/-- The line loop: a raised exception stops the scan, leaving the document
as mutated so far. -/
def runLines (format_ : SSAFmt) : PState -> List Bytes -> PState × Option PyErr
  | st, [] => (st, none)
  | st, l :: ls =>
      match processLine format_ st l with
      | .ok stNext => runLines format_ stNext ls
      | .error e => (st, some e)

/-- The end-of-input attachment flush of `SubstationFormat.from_file`
(Python truthiness: the buffer goes to the fonts mapping exactly when
`current_attachment_is_font` is `True`). -/
def eofFlush (st : PState) : PState :=
  match st.current_attachment_name with
  | some nm =>
      if st.current_attachment_is_font = some true then
        { st with
          doc :=
            { st.doc with
              fonts_attachments :=
                dictSet st.doc.fonts_attachments nm st.current_attachment_lines_buffer },
          current_attachment_lines_buffer := [],
          current_attachment_name := none }
      else
        { st with
          doc :=
            { st.doc with
              graphics_attachments :=
                dictSet st.doc.graphics_attachments nm st.current_attachment_lines_buffer },
          current_attachment_lines_buffer := [],
          current_attachment_name := none }
  | none => st

/-- `SubstationFormat.from_file` over the byte lines of the input stream:
clear the five mappings, run the line loop, flush a dangling attachment at
EOF when no exception escaped.  Returns the document (as mutated so far when
an exception escaped) together with the escaped exception, if any. -/
def SubstationFormat.from_file (subs : SSAFile) (format_ : SSAFmt)
    (lines : List Bytes) : SSAFile × Option PyErr :=
  match runLines format_ (initState subs) lines with
  | (st, none) => ((eofFlush st).doc, none)
  | (st, some e) => (st.doc, some e)


/-! ## SubStation serializer (`SubstationFormat.to_file`)

The serializer's document effect and line sequence are modelled exactly; the
textual spelling of numeric/string fields inside a line is kept structural
(constructor-tagged values) since no claim inspects it. -/

/-- The branch of `field_to_string` that produced a field, with its data. -/
inductive FieldStr where
  | timestamp (s : Bytes)
  | markedFmt (b : Bool)
  | alignNumbered (n : Nat)
  | alignLegacy (n : Nat)
  | boolStr (b : Bool)
  | strNum (v : FieldVal)
  | colorAss (c : Color)
  | colorSsa (c : Color)
deriving DecidableEq

/-- One line written by `SubstationFormat.to_file`. -/
inductive SSAOut where
  | scriptInfoHeading
  | noticeLine (s : Bytes)
  | infoLine (k : PyKey) (v : Bytes)
  | aegisubHeading
  | aegisubLine (k : PyKey) (v : Bytes)
  | stylesHeading (fmt : SSAFmt)
  | stylesFormatLine (fmt : SSAFmt)
  | styleLine (name : Bytes) (fields : List FieldStr)
  | fontsHeading
  | graphicsHeading
  | attachmentNameLine (isFont : Bool) (name : Bytes)
  | attachmentDataLine (l : Bytes)
  | blankLine
  | eventsHeading
  | eventsFormatLine (fmt : SSAFmt)
  | eventLine (t : Bytes) (fields : List FieldStr)
deriving DecidableEq

/-- Python 3 equality between a `str` and a `bytes` value: always `False`.
`field_to_string` compares its `str` field name `f` against the bytes
literals `b"start"`, `b"end"`, `b"marked"`, `b"alignment"`, so those branches
are dead in the source; they are kept here with their bodies. -/
def strEqBytes (_f : String) (_b : String) : Bool := false

/-- `SubstationFormat.to_file.field_to_string`: serialize one field value.
After the dead str-vs-bytes comparisons, dispatch is on the Python type of
the value: `bool` first, then `str`/`Number` (plain numbers and the
`Alignment` IntEnum - but not `bytes`, which is not a `str` in Python 3 and
raises the fatal `TypeError`), then `Color`. -/
def field_to_string (format_ : SSAFmt) (f : String) (v : FieldVal) :
    Except PyErr FieldStr :=
  if strEqBytes f "start" || strEqBytes f "end" then
    match v with
    | .int n => .ok (.timestamp (SubstationFormat.ms_to_timestamp n))
    | _ => .error .typeError
  else if strEqBytes f "marked" then
    match v with
    | .bool b => .ok (.markedFmt b)
    | _ => .error .typeError
  else if strEqBytes f "alignment" then
    match v with
    | .alignment a =>
        match format_ with
        | .ssa => .ok (.alignLegacy (SSA_ALIGNMENT.getD (a.val - 1) 0))
        | .ass => .ok (.alignNumbered a.val)
    | _ => .error .typeError
  else
    match v with
    | .bool b => .ok (.boolStr b)
    | .int _ => .ok (.strNum v)
    | .flt _ => .ok (.strNum v)
    | .alignment _ => .ok (.strNum v)
    | .color c =>
        match format_ with
        | .ass => .ok (.colorAss c)
        | .ssa => .ok (.colorSsa c)
    | .bytes _ => .error .typeError

/-- Modelled from the spec: `getattr(sty, f)` for the style field names. -/
def SSAStyle.getField (sty : SSAStyle) (f : String) : FieldVal :=
  match f with
  | "fontname" => .bytes sty.fontname
  | "fontsize" => .flt sty.fontsize
  | "primarycolor" => .color sty.primarycolor
  | "secondarycolor" => .color sty.secondarycolor
  | "tertiarycolor" => .color sty.outlinecolor
  | "outlinecolor" => .color sty.outlinecolor
  | "backcolor" => .color sty.backcolor
  | "bold" => .bool sty.bold
  | "italic" => .bool sty.italic
  | "underline" => .bool sty.underline
  | "strikeout" => .bool sty.strikeout
  | "scalex" => .flt sty.scalex
  | "scaley" => .flt sty.scaley
  | "spacing" => .flt sty.spacing
  | "angle" => .flt sty.angle
  | "borderstyle" => .int sty.borderstyle
  | "outline" => .flt sty.outline
  | "shadow" => .flt sty.shadow
  | "alignment" => .alignment sty.alignment
  | "marginl" => .int sty.marginl
  | "marginr" => .int sty.marginr
  | "marginv" => .int sty.marginv
  | "alphalevel" => .int sty.alphalevel
  | "encoding" => .int sty.encoding
  | _ => .bytes []

/-- Modelled from the spec: `getattr(ev, f)` for the event field names. -/
def SSAEvent.getField (ev : SSAEvent) (f : String) : FieldVal :=
  match f with
  | "start" => .int ev.start
  | "end" => .int ev.end_
  | "layer" => .int ev.layer
  | "marked" => .bool ev.marked
  | "style" => .bytes ev.style
  | "name" => .bytes ev.name
  | "marginl" => .int ev.marginl
  | "marginr" => .int ev.marginr
  | "marginv" => .int ev.marginv
  | "effect" => .bytes ev.effect
  | "text" => .bytes ev.text
  | _ => .bytes []

/-- The field list comprehension of one `Style:` output line; the first
exception aborts before the line is printed. -/
def styleLineFields (format_ : SSAFmt) (sty : SSAStyle) :
    Except PyErr (List FieldStr) :=
  (STYLE_FIELDS format_).mapM (fun f => field_to_string format_ f (sty.getField f))

/-- The field list comprehension of one event output line. -/
def eventLineFields (format_ : SSAFmt) (ev : SSAEvent) :
    Except PyErr (List FieldStr) :=
  (EVENT_FIELDS format_).mapM (fun f => field_to_string format_ f (ev.getField f))

/-- The style loop of `to_file`: an exception keeps the lines written so
far and escapes. -/
def emitStyleLines (format_ : SSAFmt) :
    List (Bytes × SSAStyle) -> List SSAOut × Option PyErr
  | [] => ([], none)
  | (name, sty) :: rest =>
      match styleLineFields format_ sty with
      | .error e => ([], some e)
      | .ok fs =>
          let (out, err) := emitStyleLines format_ rest
          (.styleLine name fs :: out, err)

/-- The event loop of `to_file`. -/
def emitEventLines (format_ : SSAFmt) :
    List SSAEvent -> List SSAOut × Option PyErr
  | [] => ([], none)
  | ev :: rest =>
      match eventLineFields format_ ev with
      | .error e => ([], some e)
      | .ok fs =>
          let (out, err) := emitEventLines format_ rest
          (.eventLine ev.type fs :: out, err)

/-- Lexicographic byte order, the order of Python `sorted` on byte-string
keys. -/
def bytesLe (a b : Bytes) : Bool :=
  match a, b with
  | [], _ => true
  | _ :: _, [] => false
  | c :: cs, d :: ds =>
      if c.toNat < d.toNat then true
      else if c = d then bytesLe cs ds
      else false

/-- The `[Fonts]` / `[Graphics]` attachment sections: entries sorted by
name, each followed by its raw line buffer and a blank line. -/
def emitAttachments (isFont : Bool) (m : List (Bytes × List Bytes)) : List SSAOut :=
  (m.mergeSort (fun p q => bytesLe p.1 q.1)).flatMap
    (fun p => .attachmentNameLine isFont p.1 ::
      (p.2.map .attachmentDataLine ++ [.blankLine]))

/-- `substation.NOTICE`, already split into its two lines as
`header_notice.splitlines(False)` does. -/
def NOTICE : List Bytes :=
  [("Script generated by pysubs2").data,
   ("https://pypi.python.org/pypi/pysubs2").data]

/-- `SubstationFormat.to_file`: set `subs.info["ScriptType"]` (a Python
`str` key) to the dialect tag, then write the Script Info section, the
optional Aegisub section, the style table, the optional attachment sections
and the events.  Returns the document after the call, the written lines and
the escaped exception, if any (an exception truncates the output but the
`ScriptType` mutation has already happened). -/
def SubstationFormat.to_file (subs : SSAFile) (format_ : SSAFmt)
    (header_notice : List Bytes) : SSAFile × List SSAOut × Option PyErr :=
  let doc :=
    { subs with
      info := dictSet subs.info (.strK (("ScriptType").data))
        (if format_ = .ass then ("v4.00+").data else ("v4.00").data) }
  let out1 : List SSAOut :=
    .scriptInfoHeading :: (header_notice.map .noticeLine ++
      doc.info.map (fun p => .infoLine p.1 p.2))
  let out2 : List SSAOut :=
    if doc.aegisub_project ≠ [] then
      .aegisubHeading :: doc.aegisub_project.map (fun p => .aegisubLine p.1 p.2)
    else []
  let out3 : List SSAOut := [.stylesHeading format_, .stylesFormatLine format_]
  match emitStyleLines format_ doc.styles with
  | (outStyles, some e) => (doc, out1 ++ out2 ++ out3 ++ outStyles, some e)
  | (outStyles, none) =>
      let outFonts : List SSAOut :=
        if doc.fonts_attachments ≠ [] then
          .fontsHeading :: emitAttachments true doc.fonts_attachments
        else []
      let outGraphics : List SSAOut :=
        if doc.graphics_attachments ≠ [] then
          .graphicsHeading :: emitAttachments false doc.graphics_attachments
        else []
      let out4 : List SSAOut := [.eventsHeading, .eventsFormatLine format_]
      let (outEvents, errE) := emitEventLines format_ doc.events
      (doc, out1 ++ out2 ++ out3 ++ outStyles ++ outFonts ++ outGraphics ++
        out4 ++ outEvents, errE)


/-! ## SubRip codec (`subrip.py`) -/

/-- `re.findall` of the `TIMESTAMP` regex over a line: leftmost
non-overlapping matches, advancing one byte where nothing matches. -/
def TIMESTAMP_findallAux : Nat -> Bytes -> List (List (List Nat))
  | 0, _ => []
  | fuel + 1, s =>
      match s with
      | [] => []
      | c :: cs =>
          match timestampLongMatch (c :: cs) with
          | some (g, rest) => g :: TIMESTAMP_findallAux fuel rest
          | none => TIMESTAMP_findallAux fuel cs

def TIMESTAMP_findall (s : Bytes) : List (List (List Nat)) :=
  TIMESTAMP_findallAux s.length s

/-- Generic single-pass `re.sub` scanner: at each position, if `matcher`
recognizes a pattern occurrence (returning the remainder after it), emit
`rep` and continue after it, otherwise keep the byte.  Every matcher used
consumes at least one byte, so the byte count is adequate fuel. -/
def replaceScanAux (matcher : Bytes -> Option Bytes) (rep : Bytes) :
    Nat -> Bytes -> Bytes
  | 0, s => s
  | fuel + 1, s =>
      match s with
      | [] => []
      | c :: cs =>
          match matcher (c :: cs) with
          | some rest => rep ++ replaceScanAux matcher rep fuel rest
          | none => c :: replaceScanAux matcher rep fuel cs

def replaceScan (matcher : Bytes -> Option Bytes) (rep : Bytes) (s : Bytes) :
    Bytes :=
  replaceScanAux matcher rep s.length s

/-- Literal (nonempty) pattern occurrence at the head of the string. -/
def literalMatch (pat : Bytes) (s : Bytes) : Option Bytes :=
  if pat ≠ [] && pat.isPrefixOf s then some (s.drop pat.length) else none

/-- `bytes.replace` / `re.sub` with a literal pattern. -/
def replaceAll (pat rep s : Bytes) : Bytes := replaceScan (literalMatch pat) rep s

/-- Occurrence of the HTML tag regex `< *x *>` (or `< */ *x *>` when
`slash` is set) at the head of the string: `<`, optional spaces, the
optional slash with optional spaces, the tag letter, optional spaces, `>`. -/
def htmlTagMatch (slash : Bool) (letter : Char) (s : Bytes) : Option Bytes :=
  match s with
  | '<' :: r1 =>
      let r2 := r1.dropWhile (fun c => c = ' ')
      let r3opt : Option Bytes :=
        if slash then
          match r2 with
          | '/' :: rr => some (rr.dropWhile (fun c => c = ' '))
          | _ => none
        else some r2
      match r3opt with
      | none => none
      | some r3 =>
          match r3 with
          | c :: r4 =>
              if c = letter then
                match r4.dropWhile (fun ch => ch = ' ') with
                | '>' :: r5 => some r5
                | _ => none
              else none
          | [] => none
  | _ => none

/-- Occurrence of the generic HTML-looking tag regex
`< */? *[a-zA-Z][^>]*>` at the head of the string. -/
def htmlOtherTagMatch (s : Bytes) : Option Bytes :=
  match s with
  | '<' :: r1 =>
      let r2 := r1.dropWhile (fun c => c = ' ')
      let r3 : Bytes :=
        match r2 with
        | '/' :: rr => rr.dropWhile (fun c => c = ' ')
        | _ => r2
      match r3 with
      | c :: r4 =>
          if c.isAlpha then
            match r4.dropWhile (fun ch => ch ≠ '>') with
            | '>' :: r5 => some r5
            | _ => none
          else none
      | [] => none
  | _ => none

/-- `re.sub(rb"\n+ *\d+ *$", b"", s)`: strip a trailing artifact consisting
of newline(s), spaces, the next cue's index digits and spaces.  The source
applies this to an already-stripped string, on which the regex `$` anchor
is plain end-of-string. -/
def stripTrailingIndex (s : Bytes) : Bytes :=
  let r := s.reverse
  let r1 := r.dropWhile (fun c => c = ' ')
  let digits := r1.takeWhile Char.isDigit
  let r2 := r1.dropWhile Char.isDigit
  let r3 := r2.dropWhile (fun c => c = ' ')
  if digits ≠ [] && r3.head? = some '\n' then
    (r3.dropWhile (fun c => c = '\n')).reverse
  else s

/-- `re.sub(b"\n+", b"\n", s)`: collapse newline runs. -/
def collapseNewlinesAux : Nat -> Bytes -> Bytes
  | 0, s => s
  | fuel + 1, s =>
      match s with
      | [] => []
      | c :: cs =>
          if c = '\n' then '\n' :: collapseNewlinesAux fuel (cs.dropWhile (fun ch => ch = '\n'))
          else c :: collapseNewlinesAux fuel cs

def collapseNewlines (s : Bytes) : Bytes := collapseNewlinesAux s.length s

/-- The keyword options of `SubripFormat.from_file` (all default `False`). -/
structure SubripReadOpts where
  keep_html_tags : Bool
  keep_unknown_html_tags : Bool
  keep_newlines : Bool
  keep_original_newlines : Bool
deriving DecidableEq

def SubripReadOpts.default : SubripReadOpts :=
  { keep_html_tags := false, keep_unknown_html_tags := false
    keep_newlines := false, keep_original_newlines := false }

/-- Whether a buffered line is blank: `re.match(rb"\s*$", line)` (the `$`
also matches before a sole trailing newline, which the whitespace class
covers anyway). -/
def isBlankLine (l : Bytes) : Bool := l.all pyIsSpace

/-- Whether a buffered line is a bare cue index:
`re.match(rb"\s*\d+\s*$", line)`. -/
def isBareIndexLine (l : Bytes) : Bool :=
  let t := l.dropWhile pyIsSpace
  let d := t.takeWhile Char.isDigit
  d ≠ [] && (t.dropWhile Char.isDigit).all pyIsSpace

/-- The eight supported-tag substitutions of `from_file.prepare_text`
(`< *i *>` to an override italics-on sequence, and so on), in source
order. -/
def convertHtmlTags (s : Bytes) : Bytes :=
  let s := replaceScan (htmlTagMatch false 'i') (("\x7b\\i1\x7d").data) s
  let s := replaceScan (htmlTagMatch true 'i') (("\x7b\\i0\x7d").data) s
  let s := replaceScan (htmlTagMatch false 's') (("\x7b\\s1\x7d").data) s
  let s := replaceScan (htmlTagMatch true 's') (("\x7b\\s0\x7d").data) s
  let s := replaceScan (htmlTagMatch false 'u') (("\x7b\\u1\x7d").data) s
  let s := replaceScan (htmlTagMatch true 'u') (("\x7b\\u0\x7d").data) s
  let s := replaceScan (htmlTagMatch false 'b') (("\x7b\\b1\x7d").data) s
  let s := replaceScan (htmlTagMatch true 'b') (("\x7b\\b0\x7d").data) s
  s

/-- `SubripFormat.from_file.prepare_text`: reduce one cue's buffered lines
to event text.  The first branch is the empty-cue artifact (all lines but
the last blank, the last a bare next-cue index): the text becomes empty.
Otherwise: join and strip, normalize line endings unless keeping original
newlines, strip a trailing next-cue index artifact, convert the supported
HTML tags to override tags unless keeping HTML, strip other HTML-looking
tags unless keeping them, and convert newlines to the override escape. -/
def prepare_text (opts : SubripReadOpts) (lines : List Bytes) : Bytes :=
  if 2 ≤ lines.length && (lines.dropLast.all isBlankLine) &&
      isBareIndexLine (lines.getLastD []) then
    []
  else
    let s := pyStrip lines.flatten
    let s :=
      if !opts.keep_original_newlines then
        replaceAll (('\x0d' : Char) :: ['\n']) ['\n'] (s) |>
          replaceAll ['\x0d'] ['\n']
      else s
    let s := stripTrailingIndex s
    let s := if !opts.keep_html_tags then convertHtmlTags s else s
    let s :=
      if !(opts.keep_html_tags || opts.keep_unknown_html_tags) then
        replaceScan htmlOtherTagMatch [] s
      else s
    let s := if !opts.keep_newlines then replaceAll ['\n'] (['\\', 'N']) s else s
    s

/-- The line scan of `SubripFormat.from_file`: a line with exactly two
timestamp matches opens a new cue; any other line is buffered into the
current cue (and discarded before the first cue). -/
def subripScanAux (acc : List ((Int × Int) × List Bytes)) :
    List Bytes -> List ((Int × Int) × List Bytes)
  | [] => acc
  | line :: rest =>
      match TIMESTAMP_findall line with
      | [g1, g2] =>
          subripScanAux
            (acc ++ [(((timestamp_to_ms g1 : Int), (timestamp_to_ms g2 : Int)), [])]) rest
      | _ =>
          match acc.getLast? with
          | some lastCue =>
              subripScanAux (acc.dropLast ++ [(lastCue.1, lastCue.2 ++ [line])]) rest
          | none => subripScanAux acc rest

/-- `SubripFormat.from_file`: replace the document's events with one event
per cue, in input order. -/
def SubripFormat.from_file (subs : SSAFile) (opts : SubripReadOpts)
    (lines : List Bytes) : SSAFile :=
  let cues := subripScanAux [] lines
  { subs with
    events := cues.map (fun c =>
      { SSAEvent.default with
        start := c.1.1, end_ := c.1.2, text := prepare_text opts c.2 }) }

/-- The keyword options of `SubripFormat.to_file`
(`apply_styles` defaults `True`, `keep_ssa_tags` defaults `False`). -/
structure SubripWriteOpts where
  apply_styles : Bool
  keep_ssa_tags : Bool
deriving DecidableEq

def SubripWriteOpts.default : SubripWriteOpts :=
  { apply_styles := true, keep_ssa_tags := false }

/-- Style lookup with fallback:
`subs.styles.get(line.style, SSAStyle.DEFAULT_STYLE)`. -/
def dictGetD [BEq a] (d : List (a × b)) (k : a) (dflt : b) : b :=
  (dictGet? d k).getD dflt

/-- The fragment loop of `SubripFormat.to_file.prepare_text`: wrap italic /
underline / strikeout fragments in HTML tags when styles are applied, raise
`ContentNotUsable` on a drawing-mode fragment. -/
def buildBody (apply_styles : Bool) :
    List (Bytes × SSAStyle) -> Except PyErr (List Bytes)
  | [] => .ok []
  | (fragment, sty) :: rest =>
      let f1 :=
        if apply_styles && sty.italic then
          ("<i>").data ++ fragment ++ ("</i>").data
        else fragment
      let f2 :=
        if apply_styles && sty.underline then ("<u>").data ++ f1 ++ ("</u>").data
        else f1
      let f3 :=
        if apply_styles && sty.strikeout then ("<s>").data ++ f2 ++ ("</s>").data
        else f2
      if sty.drawing then .error .contentNotUsable
      else (buildBody apply_styles rest).map (fun b => f3 :: b)

/-- The whitespace-escape expansion at the head of
`SubripFormat.to_file.prepare_text`: `\h` to a space, `\n` and `\N` to
literal newlines, in source order. -/
def expandWhitespaceTags (text : Bytes) : Bytes :=
  let t := replaceAll (['\\', 'h']) [' '] text
  let t := replaceAll (['\\', 'n']) ['\n'] t
  replaceAll (['\\', 'N']) ['\n'] t

/-- `SubripFormat.to_file.prepare_text`: expand the whitespace escapes,
then either pass the text through (with `keep_ssa_tags`) or resolve
override tags against the line style and the style table; finally strip
and collapse newline runs. -/
def prepareTextOut (opts : SubripWriteOpts) (styles : List (Bytes × SSAStyle))
    (text : Bytes) (style : SSAStyle) : Except PyErr Bytes :=
  let t := expandWhitespaceTags text
  let bodyE : Except PyErr (List Bytes) :=
    if opts.keep_ssa_tags then .ok [t]
    else buildBody opts.apply_styles (parse_tags t style styles)
  match bodyE with
  | .error e => .error e
  | .ok body => .ok (collapseNewlines (pyStrip body.flatten))

/-- Whether some fragment of an event's text, resolved by the override-tag
engine against the event's style (with the document's style table), is in
drawing mode. -/
def eventHasDrawingFragment (subs : SSAFile) (ev : SSAEvent) : Bool :=
  (parse_tags (expandWhitespaceTags ev.text)
      (dictGetD subs.styles ev.style SSAStyle.DEFAULT_STYLE) subs.styles).any
    (fun p => p.2.drawing)

/-- `SubripFormat._get_visible_lines`: the non-comment events. -/
def visibleLines (subs : SSAFile) : List SSAEvent :=
  subs.events.filter (fun l => !l.is_comment)

/-- One emitted SubRip cue block: the 1-based counter value, the two
timestamps of the `-->` line, and the prepared text. -/
structure SrtBlock where
  idx : Nat
  startTs : Bytes
  endTs : Bytes
  text : Bytes
deriving DecidableEq

/-- The output loop of `SubripFormat.to_file`: `ContentNotUsable` (the only
exception `prepare_text` raises) skips the event without incrementing the
counter. -/
def subripEmit (opts : SubripWriteOpts) (subs : SSAFile) :
    Nat -> List SSAEvent -> List SrtBlock
  | _, [] => []
  | lineno, line :: rest =>
      let startTs := SubripFormat.ms_to_timestamp line.start
      let endTs := SubripFormat.ms_to_timestamp line.end_
      match prepareTextOut opts subs.styles line.text
          (dictGetD subs.styles line.style SSAStyle.DEFAULT_STYLE) with
      | .error _ => subripEmit opts subs lineno rest
      | .ok text =>
          ⟨lineno, startTs, endTs, text⟩ :: subripEmit opts subs (lineno + 1) rest

/-- `SubripFormat.to_file`: emit one numbered block per visible event whose
text is usable. -/
def SubripFormat.to_file (subs : SSAFile) (opts : SubripWriteOpts) :
    List SrtBlock :=
  subripEmit opts subs 1 (visibleLines subs)


/-- The `start`/`end` branch of `string_to_field` as a function of the
stripped field value (used to state that the branch depends on the raw value
only through `strip`). -/
def startEndCoerce (w : Bytes) : Except PyErr FieldVal :=
  let (sign, v2) : Int × Bytes :=
    match w with
    | '-' :: rest => (-1, rest)
    | w' => (1, w')
  match timestampLongMatch v2 with
  | some (g, _) => .ok (.int (sign * (timestamp_to_ms g : Int)))
  | none =>
      match timestampShortMatch v2 with
      | some (g, _) => .ok (.int (sign * (timestamp_to_ms g : Int)))
      | none => .error .valueError

/-! ## Claim theorems (easy / concrete ones) -/

/-- C1: the claim states that the centisecond field of
`SubstationFormat.ms_to_timestamp` always lies between 0 and 99 because a
millisecond remainder of 995-999 carries into seconds/minutes/hours.  The
code rounds after the hour/minute/second split, so no carry happens: for the
in-range input 999 ms it emits a three-digit centisecond field, the
timestamp `0:00:00.100`, instead of the carried `0:00:01.00`. -/
theorem C1_centisecond_no_carry :
    0 ≤ (999 : Int) ∧ (999 : Int) ≤ (SubstationFormat.MAX_REPRESENTABLE_TIME : Int) ∧
    SubstationFormat.ms_to_timestamp 999 = ("0:00:00.100").data ∧
    SubstationFormat.ms_to_timestamp 999 ≠ ("0:00:01.00").data := by decide

/-- C2 counterexample: `SubstationFormat.to_file` does not leave the
document unchanged - on the empty document it inserts the `ScriptType`
entry into the info mapping. -/
theorem C2_counterexample :
    (SubstationFormat.to_file SSAFile.empty .ass NOTICE).1.info ≠
      SSAFile.empty.info := by decide

/-- C2 (amended): `SubstationFormat.to_file` leaves the event sequence, the
style mapping, the aegisub-project mapping and both attachment mappings
unchanged, and its only document mutation is upserting the info entry with
the `str` key `ScriptType` (set to `v4.00+` for ass, `v4.00` for ssa) -
whether or not serialization later aborts with a type error. -/
theorem C2_to_file_frame (subs : SSAFile) (fmt : SSAFmt)
    (header_notice : List Bytes) :
    (SubstationFormat.to_file subs fmt header_notice).1 =
      { subs with
        info := dictSet subs.info (.strK (("ScriptType").data))
          (if fmt = .ass then ("v4.00+").data else ("v4.00").data) } ∧
    (SubstationFormat.to_file subs fmt header_notice).1.events = subs.events ∧
    (SubstationFormat.to_file subs fmt header_notice).1.styles = subs.styles ∧
    (SubstationFormat.to_file subs fmt header_notice).1.aegisub_project =
      subs.aegisub_project ∧
    (SubstationFormat.to_file subs fmt header_notice).1.fonts_attachments =
      subs.fonts_attachments ∧
    (SubstationFormat.to_file subs fmt header_notice).1.graphics_attachments =
      subs.graphics_attachments := by
  have hdoc : (SubstationFormat.to_file subs fmt header_notice).1 =
      { subs with
        info := dictSet subs.info (.strK (("ScriptType").data))
          (if fmt = .ass then ("v4.00+").data else ("v4.00").data) } := by
    unfold SubstationFormat.to_file
    try dsimp only
    split <;> rfl
  exact ⟨hdoc, by rw [hdoc], by rw [hdoc], by rw [hdoc], by rw [hdoc], by rw [hdoc]⟩

/-- C4 counterexample: for the SubStation codec the round trip is not the
identity on all of [0, 35999990]: 5 ms renders as `0:00:00.01`, which parses
back to 10 ms. -/
theorem C4_counterexample :
    0 ≤ (5 : Int) ∧ (5 : Int) ≤ (SubstationFormat.MAX_REPRESENTABLE_TIME : Int) ∧
    (timestampLongMatch (SubstationFormat.ms_to_timestamp 5)).map
      (fun g => (timestamp_to_ms g.1 : Int)) = some 10 ∧
    (10 : Int) ≠ (5 : Int) := by decide

/-- C7: in `SubripFormat.from_file`, a cue whose buffered lines number at
least two, all blank but the last, with the last a bare integer, yields the
empty text (for any option set - the artifact branch precedes all option
handling). -/
theorem C7_empty_cue (opts : SubripReadOpts) (lines : List Bytes)
    (h2 : 2 ≤ lines.length)
    (hblank : lines.dropLast.all isBlankLine = true)
    (hlast : isBareIndexLine (lines.getLastD []) = true) :
    prepare_text opts lines = [] := by
  rw [List.getLastD_eq_getLast?] at hlast
  unfold prepare_text
  simp [h2, hblank, hlast]

theorem C7_empty_cue_witness :
    2 ≤ ([("\n").data, ("  \n").data, ("17\n").data] : List Bytes).length ∧
    ([("\n").data, ("  \n").data] : List Bytes).all isBlankLine = true ∧
    isBareIndexLine (("17\n").data) = true ∧
    prepare_text SubripReadOpts.default
      [("\n").data, ("  \n").data, ("17\n").data] = [] :=
  ⟨by decide, by decide, by decide,
    C7_empty_cue SubripReadOpts.default
      [("\n").data, ("  \n").data, ("17\n").data]
      (by decide) (by decide) (by decide)⟩

/-- C8: parsing a SubRip cue whose body is `<i>hello</i>` with default
options yields an event whose text is the override-tag equivalent, and
serializing the parsed document back to SubRip with default options
reproduces the body `<i>hello</i>`. -/
theorem C8_html_round_trip :
    (SubripFormat.from_file SSAFile.empty SubripReadOpts.default
        [("1\n").data, ("00:00:01,000 --> 00:00:02,000\n").data,
         ("<i>hello</i>\n").data]).events.map SSAEvent.text =
      [("\x7b\\i1\x7dhello\x7b\\i0\x7d").data] ∧
    (SubripFormat.to_file
        (SubripFormat.from_file SSAFile.empty SubripReadOpts.default
          [("1\n").data, ("00:00:01,000 --> 00:00:02,000\n").data,
           ("<i>hello</i>\n").data])
        SubripWriteOpts.default).map SrtBlock.text =
      [("<i>hello</i>").data] := by decide

/-- C9: a start or end field whose stripped value is `-0:00:01.00` parses to
-1000 ms in `string_to_field`, for either dialect: the leading sign is
accepted, the remainder is matched by the long timestamp grammar and the
parsed value is negated. -/
theorem C9_negative_timestamp (fmt : SSAFmt) (v : Bytes)
    (h : pyStrip v = ("-0:00:01.00").data) :
    string_to_field fmt "start" v = .ok (.int (-1000)) ∧
    string_to_field fmt "end" v = .ok (.int (-1000)) := by
  constructor
  · calc string_to_field fmt "start" v = startEndCoerce (pyStrip v) := rfl
      _ = startEndCoerce (("-0:00:01.00").data) := by rw [h]
      _ = .ok (.int (-1000)) := by decide
  · calc string_to_field fmt "end" v = startEndCoerce (pyStrip v) := rfl
      _ = startEndCoerce (("-0:00:01.00").data) := by rw [h]
      _ = .ok (.int (-1000)) := by decide

theorem C9_negative_timestamp_witness :
    pyStrip (("-0:00:01.00").data) = ("-0:00:01.00").data ∧
    string_to_field .ass "start" (("-0:00:01.00").data) = .ok (.int (-1000)) ∧
    string_to_field .ass "end" (("-0:00:01.00").data) = .ok (.int (-1000)) :=
  ⟨by decide,
    (C9_negative_timestamp .ass (("-0:00:01.00").data) (by decide)).1,
    (C9_negative_timestamp .ass (("-0:00:01.00").data) (by decide)).2⟩


/-! ## Drawing-mode fragments in the SubRip serializer (C5, C6) -/

/-- Every exception of the fragment loop is `ContentNotUsable`. -/
theorem buildBody_error_only (ap : Bool) :
    ∀ (l : List (Bytes × SSAStyle)) (e : PyErr),
      buildBody ap l = .error e → e = .contentNotUsable := by
  intro l
  induction l with
  | nil => intro e h; simp [buildBody] at h
  | cons p rest ih =>
      intro e h
      rcases p with ⟨frag, sty⟩
      by_cases hd : sty.drawing
      · simp [buildBody, hd] at h
        exact h.symm
      · simp only [buildBody, hd, if_false, Bool.false_eq_true] at h
        cases hb : buildBody ap rest with
        | ok b => rw [hb] at h; simp [Except.map] at h
        | error e2 =>
            rw [hb] at h
            simp [Except.map] at h
            rw [h] at hb
            exact ih e hb

/-- The fragment loop raises exactly when some fragment's resolved style is
in drawing mode. -/
theorem buildBody_error_iff (ap : Bool) :
    ∀ l : List (Bytes × SSAStyle),
      buildBody ap l = .error .contentNotUsable ↔
        l.any (fun p => p.2.drawing) = true := by
  intro l
  induction l with
  | nil => simp [buildBody]
  | cons p rest ih =>
      rcases p with ⟨frag, sty⟩
      by_cases hd : sty.drawing
      · simp [buildBody, hd]
      · simp only [buildBody, hd, if_false, List.any_cons, Bool.false_or,
          Bool.false_eq_true]
        cases hb : buildBody ap rest with
        | ok b => simp [Except.map, hb] at ih ⊢; simpa using ih
        | error e2 =>
            have he2 : e2 = .contentNotUsable := buildBody_error_only ap rest e2 hb
            subst he2
            simp [Except.map, hb] at ih ⊢
            simpa using ih

/-- Every exception of the SubRip serializer's `prepare_text` is
`ContentNotUsable`. -/
theorem prepareTextOut_error_only (opts : SubripWriteOpts)
    (styles : List (Bytes × SSAStyle)) (text : Bytes) (style : SSAStyle)
    (e : PyErr) (h : prepareTextOut opts styles text style = .error e) :
    e = .contentNotUsable := by
  unfold prepareTextOut at h
  cases hkk : opts.keep_ssa_tags <;> rw [hkk] at h
  · simp only [Bool.false_eq_true, if_false] at h
    cases hb : buildBody opts.apply_styles
        (parse_tags (expandWhitespaceTags text) style styles) <;> rw [hb] at h
    case error e2 =>
        simp at h
        rw [h] at hb
        exact buildBody_error_only _ _ _ hb
    case ok b => simp at h
  · simp at h

/-- With `keep_ssa_tags` off, the SubRip serializer's `prepare_text` raises
`ContentNotUsable` exactly when some resolved fragment of the expanded text
is in drawing mode. -/
theorem prepareTextOut_error_iff (opts : SubripWriteOpts)
    (hk : opts.keep_ssa_tags = false) (styles : List (Bytes × SSAStyle))
    (text : Bytes) (style : SSAStyle) :
    prepareTextOut opts styles text style = .error .contentNotUsable ↔
      (parse_tags (expandWhitespaceTags text) style styles).any
        (fun p => p.2.drawing) = true := by
  unfold prepareTextOut
  rw [hk]
  simp only [Bool.false_eq_true, if_false]
  cases hb : buildBody opts.apply_styles
      (parse_tags (expandWhitespaceTags text) style styles) with
  | ok b =>
      simp only [hb]
      constructor
      · intro h; exact absurd h (by simp)
      · intro h
        exact absurd ((buildBody_error_iff opts.apply_styles _).2 h)
          (by rw [hb]; simp)
  | error e =>
      have he : e = .contentNotUsable :=
        buildBody_error_only opts.apply_styles _ e hb
      subst he
      simp only [hb]
      constructor
      · intro _; exact (buildBody_error_iff opts.apply_styles _).1 hb
      · intro _; trivial

/-- The emitted cue counters are consecutive starting at the initial
counter. -/
theorem subripEmit_idx (opts : SubripWriteOpts) (subs : SSAFile) :
    ∀ (evs : List SSAEvent) (n : Nat),
      (subripEmit opts subs n evs).map SrtBlock.idx =
        List.range' n (subripEmit opts subs n evs).length := by
  intro evs
  induction evs with
  | nil => intro n; simp [subripEmit]
  | cons ev rest ih =>
      intro n
      unfold subripEmit
      cases hp : prepareTextOut opts subs.styles ev.text
          (dictGetD subs.styles ev.style SSAStyle.DEFAULT_STYLE) with
      | error e => exact ih n
      | ok text =>
          simp only [List.map_cons, List.length_cons, List.range'_succ]
          rw [ih (n + 1)]

/-- Events whose prepared text raises contribute nothing: the loop equals
the loop over the events whose prepared text is usable. -/
theorem subripEmit_skip (opts : SubripWriteOpts) (subs : SSAFile) :
    ∀ (evs : List SSAEvent) (n : Nat),
      subripEmit opts subs n evs =
        subripEmit opts subs n (evs.filter (fun ev =>
          prepareTextOut opts subs.styles ev.text
            (dictGetD subs.styles ev.style SSAStyle.DEFAULT_STYLE) ≠
              .error .contentNotUsable)) := by
  intro evs
  induction evs with
  | nil => intro n; simp [subripEmit]
  | cons ev rest ih =>
      intro n
      cases hp : prepareTextOut opts subs.styles ev.text
          (dictGetD subs.styles ev.style SSAStyle.DEFAULT_STYLE) with
      | error e =>
          have he : e = .contentNotUsable :=
            prepareTextOut_error_only opts subs.styles ev.text
              (dictGetD subs.styles ev.style SSAStyle.DEFAULT_STYLE) e hp
          subst he
          rw [List.filter_cons_of_neg (by simp [hp])]
          conv_lhs => rw [subripEmit]
          rw [hp]
          exact ih n
      | ok text =>
          rw [List.filter_cons_of_pos (by simp [hp])]
          conv_lhs => rw [subripEmit]
          conv_rhs => rw [subripEmit]
          rw [hp]
          simp only
          rw [ih (n + 1)]


/-- The emit loop reads the document only through its style table. -/
theorem subripEmit_styles_eq (opts : SubripWriteOpts) (s1 s2 : SSAFile)
    (hs : s1.styles = s2.styles) :
    ∀ (evs : List SSAEvent) (n : Nat),
      subripEmit opts s1 n evs = subripEmit opts s2 n evs := by
  intro evs
  induction evs with
  | nil => intro n; simp [subripEmit]
  | cons ev rest ih =>
      intro n
      unfold subripEmit
      rw [hs]
      cases prepareTextOut opts s2.styles ev.text
          (dictGetD s2.styles ev.style SSAStyle.DEFAULT_STYLE) with
      | error e => exact ih n
      | ok text => simp only; rw [ih (n + 1)]

/-- C6: with default options, an event any of whose resolved fragments is in
drawing mode raises `ContentNotUsable` in `prepare_text`, so its entire line
is skipped from the SubRip output (the output equals the loop over the
visible events without drawing fragments) and the 1-based cue counter is not
incremented: the emitted indices are exactly 1, 2, ..., K. -/
theorem C6_drawing_skips_line (subs : SSAFile) :
    ((SubripFormat.to_file subs SubripWriteOpts.default).map SrtBlock.idx =
      List.range' 1 (SubripFormat.to_file subs SubripWriteOpts.default).length) ∧
    (∀ ev ∈ visibleLines subs, eventHasDrawingFragment subs ev = true →
      prepareTextOut SubripWriteOpts.default subs.styles ev.text
        (dictGetD subs.styles ev.style SSAStyle.DEFAULT_STYLE) =
          .error .contentNotUsable) ∧
    (SubripFormat.to_file subs SubripWriteOpts.default =
      subripEmit SubripWriteOpts.default subs 1
        ((visibleLines subs).filter
          (fun ev => !eventHasDrawingFragment subs ev))) := by
  refine ⟨subripEmit_idx _ _ _ 1, ?_, ?_⟩
  · intro ev _ hdraw
    unfold eventHasDrawingFragment at hdraw
    exact (prepareTextOut_error_iff SubripWriteOpts.default rfl subs.styles
      ev.text (dictGetD subs.styles ev.style SSAStyle.DEFAULT_STYLE)).2 hdraw
  · unfold SubripFormat.to_file
    rw [subripEmit_skip]
    congr 1
    apply List.filter_congr
    intro ev _
    unfold eventHasDrawingFragment
    by_cases hd : (parse_tags (expandWhitespaceTags ev.text)
        (dictGetD subs.styles ev.style SSAStyle.DEFAULT_STYLE) subs.styles).any
        (fun p => p.2.drawing) = true
    · rw [hd]
      have herr := (prepareTextOut_error_iff SubripWriteOpts.default rfl
        subs.styles ev.text
        (dictGetD subs.styles ev.style SSAStyle.DEFAULT_STYLE)).2 hd
      simp [herr]
    · have hne : prepareTextOut SubripWriteOpts.default subs.styles ev.text
          (dictGetD subs.styles ev.style SSAStyle.DEFAULT_STYLE) ≠
            .error .contentNotUsable := by
        intro hcon
        exact hd ((prepareTextOut_error_iff SubripWriteOpts.default rfl
          subs.styles ev.text
          (dictGetD subs.styles ev.style SSAStyle.DEFAULT_STYLE)).1 hcon)
      simp only [Bool.not_eq_true] at hd
      rw [hd]
      simp [hne]

theorem C6_drawing_skips_line_witness :
    prepareTextOut SubripWriteOpts.default
      ({ SSAFile.empty with
        events := [{ SSAEvent.default with
          text := ("a\x7b\\p1\x7db\x7b\\p0\x7dc").data }] } : SSAFile).styles
      (("a\x7b\\p1\x7db\x7b\\p0\x7dc").data)
      (dictGetD ({ SSAFile.empty with
        events := [{ SSAEvent.default with
          text := ("a\x7b\\p1\x7db\x7b\\p0\x7dc").data }] } : SSAFile).styles
        ({ SSAEvent.default with
          text := ("a\x7b\\p1\x7db\x7b\\p0\x7dc").data } : SSAEvent).style
        SSAStyle.DEFAULT_STYLE) = .error .contentNotUsable :=
  (C6_drawing_skips_line
    { SSAFile.empty with
      events := [{ SSAEvent.default with
        text := ("a\x7b\\p1\x7db\x7b\\p0\x7dc").data }] }).2.1
    { SSAEvent.default with text := ("a\x7b\\p1\x7db\x7b\\p0\x7dc").data }
    (by decide) (by decide)

/-- C5 counterexample: an event whose text resolves to the fragments `a`
(not drawing), `b` (drawing), `c` (not drawing) produces no SubRip output at
all - the non-drawing fragments `a` and `c` are not written either, refuting
that only the drawing fragment is omitted. -/
theorem C5_counterexample :
    SubripFormat.to_file
      { SSAFile.empty with
        events := [{ SSAEvent.default with
          text := ("a\x7b\\p1\x7db\x7b\\p0\x7dc").data }] }
      SubripWriteOpts.default = [] ∧
    (parse_tags (expandWhitespaceTags (("a\x7b\\p1\x7db\x7b\\p0\x7dc").data))
        SSAStyle.DEFAULT_STYLE []).map (fun p => (p.1, p.2.drawing)) =
      [(['a'], false), (['b'], true), (['c'], false)] := by decide

/-- C5 (amended): when some fragment of an event's parsed text has a
resolved style with drawing mode set, that fragment is omitted from the
output together with all the event's other fragments: `prepare_text` raises
`ContentNotUsable` and the whole event is dropped, so serializing equals
serializing the document without its drawing-fragment events. -/
theorem C5_drawing_drops_whole_event (subs : SSAFile) :
    (∀ ev ∈ visibleLines subs, eventHasDrawingFragment subs ev = true →
      prepareTextOut SubripWriteOpts.default subs.styles ev.text
        (dictGetD subs.styles ev.style SSAStyle.DEFAULT_STYLE) =
          .error .contentNotUsable) ∧
    SubripFormat.to_file subs SubripWriteOpts.default =
      SubripFormat.to_file
        { subs with
          events := subs.events.filter
            (fun ev => ev.is_comment || !eventHasDrawingFragment subs ev) }
        SubripWriteOpts.default := by
  constructor
  · intro ev _ hdraw
    unfold eventHasDrawingFragment at hdraw
    exact (prepareTextOut_error_iff SubripWriteOpts.default rfl subs.styles
      ev.text (dictGetD subs.styles ev.style SSAStyle.DEFAULT_STYLE)).2 hdraw
  · unfold SubripFormat.to_file visibleLines
    rw [subripEmit_styles_eq SubripWriteOpts.default
      { subs with
        events := subs.events.filter
          (fun ev => ev.is_comment || !eventHasDrawingFragment subs ev) }
      subs rfl]
    rw [subripEmit_skip, subripEmit_skip]
    simp only [List.filter_filter]
    congr 1
    apply List.filter_congr
    intro ev _
    by_cases hc : ev.is_comment
    · simp [hc]
    · by_cases hd : eventHasDrawingFragment subs ev = true
      · have herr := (prepareTextOut_error_iff SubripWriteOpts.default rfl
          subs.styles ev.text
          (dictGetD subs.styles ev.style SSAStyle.DEFAULT_STYLE)).2
          (by unfold eventHasDrawingFragment at hd; exact hd)
        simp [hc, hd, herr]
      · have hne : prepareTextOut SubripWriteOpts.default subs.styles ev.text
            (dictGetD subs.styles ev.style SSAStyle.DEFAULT_STYLE) ≠
              .error .contentNotUsable := by
          intro hcon
          exact hd (by
            unfold eventHasDrawingFragment
            exact (prepareTextOut_error_iff SubripWriteOpts.default rfl
              subs.styles ev.text
              (dictGetD subs.styles ev.style SSAStyle.DEFAULT_STYLE)).1 hcon)
        simp [hc, hd, hne]

theorem C5_drawing_drops_whole_event_witness :
    prepareTextOut SubripWriteOpts.default
      ({ SSAFile.empty with
        events := [{ SSAEvent.default with
          text := ("x\x7b\\p4\x7dy").data }] } : SSAFile).styles
      (("x\x7b\\p4\x7dy").data)
      (dictGetD ({ SSAFile.empty with
        events := [{ SSAEvent.default with
          text := ("x\x7b\\p4\x7dy").data }] } : SSAFile).styles
        ({ SSAEvent.default with
          text := ("x\x7b\\p4\x7dy").data } : SSAEvent).style
        SSAStyle.DEFAULT_STYLE) = .error .contentNotUsable :=
  (C5_drawing_drops_whole_event
    { SSAFile.empty with
      events := [{ SSAEvent.default with
        text := ("x\x7b\\p4\x7dy").data }] }).1
    { SSAEvent.default with text := ("x\x7b\\p4\x7dy").data }
    (by decide) (by decide)


/-! ## Frame property of the SubStation parser (C10) -/

/-- One parser step commutes with prefixing the event sequence: the step
never reads the events, it only appends to them. -/
theorem processLine_prepend (fmt : SSAFmt) (st : PState) (raw : Bytes)
    (es : List SSAEvent) :
    processLine fmt { st with doc := { st.doc with events := es ++ st.doc.events } } raw =
      (processLine fmt st raw).map
        (fun st2 => { st2 with doc := { st2.doc with events := es ++ st2.doc.events } }) := by
  unfold processLine
  try dsimp only
  split
  · simp [Except.map]
  split
  · (repeat' split) <;> simp [Except.map]
  split
  · -- Fonts/Graphics section: reduce the flush expression in lockstep on
    -- both sides before the outer match can be taken apart.
    cases hn : st.current_attachment_name with
    | none =>
        try dsimp only
        cases hm : ATTACHMENT_FILE_HEADING_match (pyStrip raw) with
        | some nm2 => simp [Except.map]
        | none =>
            by_cases hline : pyStrip raw = [] <;> simp [hline, Except.map]
    | some nm =>
        try dsimp only
        by_cases hflush : ((ATTACHMENT_FILE_HEADING_match (pyStrip raw)).isSome
            || decide (pyStrip raw = [])) = true
        · by_cases hfont : st.inside_font_section = true
          · cases hm : ATTACHMENT_FILE_HEADING_match (pyStrip raw) with
            | some nm2 => simp [hflush, hfont, hm, Except.map]
            | none =>
                by_cases hline : pyStrip raw = []
                · simp [hflush, hfont, hm, hline, Except.map]
                · rw [hm] at hflush; simp [hline] at hflush
          · by_cases hg : st.inside_graphic_section = true
            · cases hm : ATTACHMENT_FILE_HEADING_match (pyStrip raw) with
              | some nm2 => simp [hflush, hfont, hg, hm, Except.map]
              | none =>
                  by_cases hline : pyStrip raw = []
                  · simp [hflush, hfont, hg, hm, hline, Except.map]
                  · rw [hm] at hflush; simp [hline] at hflush
            · simp [hflush, hfont, hg, Except.map]
        · cases hm : ATTACHMENT_FILE_HEADING_match (pyStrip raw) with
          | some nm2 => rw [hm] at hflush; simp at hflush
          | none =>
              by_cases hline : pyStrip raw = []
              · rw [hm] at hflush; simp [hline] at hflush
              · simp [hflush, hm, hline, Except.map]
  split
  · (repeat' split) <;> simp [Except.map]
  split
  · (repeat' split) <;> simp [Except.map, List.append_assoc]
  · simp [Except.map]


/-- The parser's line loop commutes with prefixing the event sequence. -/
theorem runLines_prepend (fmt : SSAFmt) :
    ∀ (lines : List Bytes) (st : PState) (es : List SSAEvent),
      runLines fmt
          { st with doc := { st.doc with events := es ++ st.doc.events } } lines =
        ({ (runLines fmt st lines).1 with
            doc := { (runLines fmt st lines).1.doc with
              events := es ++ (runLines fmt st lines).1.doc.events } },
          (runLines fmt st lines).2) := by
  intro lines
  induction lines with
  | nil => intro st es; simp [runLines]
  | cons l ls ih =>
      intro st es
      unfold runLines
      rw [processLine_prepend]
      cases hp : processLine fmt st l with
      | ok st2 =>
          simp only [Except.map]
          exact ih st2 es
      | error e => simp [Except.map]

/-- The EOF attachment flush never touches the event sequence. -/
theorem eofFlush_prepend (st : PState) (es : List SSAEvent) :
    eofFlush { st with doc := { st.doc with events := es ++ st.doc.events } } =
      { eofFlush st with
        doc := { (eofFlush st).doc with
          events := es ++ (eofFlush st).doc.events } } := by
  unfold eofFlush
  try dsimp only
  cases hn : st.current_attachment_name with
  | none => simp [hn]
  | some nm =>
      simp only [hn]
      split <;> simp

/-- C10: `SubstationFormat.from_file` empties the info, aegisub-project,
style and both attachment mappings before reading any line (the resulting
mappings equal the ones produced from an empty document), but never clears
the event sequence: the pre-existing events stay in place ahead of the newly
parsed ones, whether or not an exception interrupts the parse - and the
parse fails in the same way regardless of the initial document. -/
theorem C10_from_file_frame (subs : SSAFile) (fmt : SSAFmt) (lines : List Bytes) :
    (SubstationFormat.from_file subs fmt lines).1.events =
      subs.events ++ (SubstationFormat.from_file SSAFile.empty fmt lines).1.events ∧
    (SubstationFormat.from_file subs fmt lines).1.info =
      (SubstationFormat.from_file SSAFile.empty fmt lines).1.info ∧
    (SubstationFormat.from_file subs fmt lines).1.aegisub_project =
      (SubstationFormat.from_file SSAFile.empty fmt lines).1.aegisub_project ∧
    (SubstationFormat.from_file subs fmt lines).1.styles =
      (SubstationFormat.from_file SSAFile.empty fmt lines).1.styles ∧
    (SubstationFormat.from_file subs fmt lines).1.fonts_attachments =
      (SubstationFormat.from_file SSAFile.empty fmt lines).1.fonts_attachments ∧
    (SubstationFormat.from_file subs fmt lines).1.graphics_attachments =
      (SubstationFormat.from_file SSAFile.empty fmt lines).1.graphics_attachments ∧
    (SubstationFormat.from_file subs fmt lines).2 =
      (SubstationFormat.from_file SSAFile.empty fmt lines).2 := by
  have hinit : initState subs =
      { initState SSAFile.empty with
        doc := { (initState SSAFile.empty).doc with
          events := subs.events ++ (initState SSAFile.empty).doc.events } } := by
    simp [initState, SSAFile.empty]
  have hmain : SubstationFormat.from_file subs fmt lines =
      ({ (SubstationFormat.from_file SSAFile.empty fmt lines).1 with
          events := subs.events ++
            (SubstationFormat.from_file SSAFile.empty fmt lines).1.events },
        (SubstationFormat.from_file SSAFile.empty fmt lines).2) := by
    unfold SubstationFormat.from_file
    rw [hinit, runLines_prepend]
    rcases hX : runLines fmt (initState SSAFile.empty) lines with ⟨st2, err⟩
    cases err with
    | none =>
        try dsimp only
        rw [eofFlush_prepend]
    | some e => dsimp only
  exact ⟨by rw [hmain], by rw [hmain], by rw [hmain], by rw [hmain],
    by rw [hmain], by rw [hmain], by rw [hmain]⟩


/-! ## Decimal rendering and the timestamp round trip (C4) -/

theorem digitsVal_append_singleton (l : List Nat) (d : Nat) :
    digitsVal (l ++ [d]) = 10 * digitsVal l + d := by
  simp [digitsVal, List.foldl_append]

theorem natDigitsAux_spec :
    ∀ (fuel n : Nat), n < fuel →
      digitsVal (natDigitsAux fuel n) = n ∧
        (∀ d ∈ natDigitsAux fuel n, d < 10) ∧ natDigitsAux fuel n ≠ [] := by
  intro fuel
  induction fuel with
  | zero => intro n h; omega
  | succ f ih =>
      intro n h
      by_cases hn : n < 10
      · simp [natDigitsAux, hn, digitsVal]
      · have hdiv : n / 10 < f := by omega
        have ihd := ih (n / 10) hdiv
        simp only [natDigitsAux, hn, if_false]
        refine ⟨?_, ?_, by simp⟩
        · rw [digitsVal_append_singleton, ihd.1]
          omega
        · intro d hd
          rcases List.mem_append.1 hd with hd1 | hd2
          · exact ihd.2.1 d hd1
          · simp at hd2; omega

theorem natDigits_val (n : Nat) : digitsVal (natDigits n) = n :=
  (natDigitsAux_spec (n + 1) n (Nat.lt_succ_self n)).1

theorem natDigits_lt_ten (n : Nat) : ∀ d ∈ natDigits n, d < 10 :=
  (natDigitsAux_spec (n + 1) n (Nat.lt_succ_self n)).2.1

theorem natDigitsAux_length :
    ∀ (fuel n k : Nat), n < fuel → n < 10 ^ k → 1 ≤ k →
      (natDigitsAux fuel n).length ≤ k := by
  intro fuel
  induction fuel with
  | zero => intro n k h; omega
  | succ f ih =>
      intro n k h hk h1
      by_cases hn : n < 10
      · simp [natDigitsAux, hn]; omega
      · have hk2 : 2 ≤ k := by
          by_contra hcon
          have : k = 1 := by omega
          subst this
          simp at hk
          omega
        have hdivk : n / 10 < 10 ^ (k - 1) := by
          rw [Nat.div_lt_iff_lt_mul (by omega)]
          calc n < 10 ^ k := hk
            _ = 10 ^ (k - 1) * 10 := by
                rw [← Nat.pow_succ]
                congr 1
                omega
        have := ih (n / 10) (k - 1) (by omega) hdivk (by omega)
        simp only [natDigitsAux, hn, if_false]
        rw [List.length_append]
        simp only [List.length_singleton]
        omega

theorem digitsVal_replicate_zero (k : Nat) (l : List Nat) :
    digitsVal (List.replicate k 0 ++ l) = digitsVal l := by
  induction k with
  | zero => simp
  | succ m ih =>
      have : List.replicate (m + 1) 0 ++ l = 0 :: (List.replicate m 0 ++ l) := by
        simp [List.replicate_succ]
      rw [this]
      simpa [digitsVal] using ih

theorem padDigits_val (w n : Nat) : digitsVal (padDigits w n) = n := by
  unfold padDigits
  rw [digitsVal_replicate_zero, natDigits_val]

theorem padDigits_lt_ten (w n : Nat) : ∀ d ∈ padDigits w n, d < 10 := by
  intro d hd
  unfold padDigits at hd
  rcases List.mem_append.1 hd with h1 | h2
  · have := List.eq_of_mem_replicate h1
    omega
  · exact natDigits_lt_ten n d h2

theorem padDigits_length (w n : Nat) (h : n < 10 ^ w) (hw : 1 ≤ w) :
    (padDigits w n).length = w := by
  unfold padDigits
  have hlen : (natDigits n).length ≤ w :=
    natDigitsAux_length (n + 1) n w (Nat.lt_succ_self n) h hw
  rw [List.length_append, List.length_replicate]
  omega

theorem digitChar_isDigit : ∀ d < 10, (Nat.digitChar d).isDigit = true := by decide

theorem charDigit_digitChar : ∀ d < 10, charDigit (Nat.digitChar d) = d := by decide

theorem takeDigitRun_render (ds : List Nat) (hds : ∀ d ∈ ds, d < 10)
    (rest : Bytes) (hrest : ∀ c, rest.head? = some c → c.isDigit = false) :
    takeDigitRun (ds.map Nat.digitChar ++ rest) = (ds, rest) := by
  induction ds with
  | nil =>
      cases rest with
      | nil => rfl
      | cons c cs =>
          have := hrest c (by simp)
          simp [takeDigitRun, this]
  | cons d ds ih =>
      have hd : d < 10 := hds d (by simp)
      have hdig := digitChar_isDigit d hd
      have hval := charDigit_digitChar d hd
      simp only [List.map_cons, List.cons_append, takeDigitRun, hdig, if_true,
        List.append_eq]
      rw [ih (fun x hx => hds x (by simp [hx]))]
      simp [hval]


theorem takeDigitRun_render_nil (ds : List Nat) (hds : ∀ d ∈ ds, d < 10) :
    takeDigitRun (ds.map Nat.digitChar) = (ds, []) := by
  have h : ds.map Nat.digitChar = ds.map Nat.digitChar ++ [] :=
    (List.append_nil _).symm
  rw [h, takeDigitRun_render ds hds [] (by intro c hc; simp at hc)]

/-- Parsing a rendered timestamp recovers exactly the four padded digit
groups, with nothing left over. -/
theorem timestampLongMatch_render (hd md sd fd : List Nat) (sep : Char)
    (Hh : ∀ d ∈ hd, d < 10) (Hm : ∀ d ∈ md, d < 10)
    (Hs : ∀ d ∈ sd, d < 10) (Hf : ∀ d ∈ fd, d < 10)
    (Lh : hd.length = 1 ∨ hd.length = 2) (Lm : md.length = 2)
    (Ls : sd.length = 2) (Lf : fd.length = 2 ∨ fd.length = 3)
    (Hsep : sep = '.' ∨ sep = ',') :
    timestampLongMatch (hd.map Nat.digitChar ++ ':' ::
        (md.map Nat.digitChar ++ ':' ::
          (sd.map Nat.digitChar ++ sep :: fd.map Nat.digitChar))) =
      some ([hd, md, sd, fd], []) := by
  have hcolon : ∀ (l : Bytes) (c : Char),
      (':' :: l).head? = some c → c.isDigit = false := by
    intro l c hc
    simp only [List.head?_cons, Option.some.injEq] at hc
    subst hc
    decide
  have hsepc : ∀ (l : Bytes) (c : Char),
      (sep :: l).head? = some c → c.isDigit = false := by
    intro l c hc
    simp only [List.head?_cons, Option.some.injEq] at hc
    subst hc
    rcases Hsep with h | h <;> subst h <;> decide
  unfold timestampLongMatch
  rw [takeDigitRun_render hd Hh _ (hcolon _)]
  try dsimp only
  have hLh : (decide (hd.length < 1) || decide (2 < hd.length)) = false := by
    rcases Lh with L | L <;> rw [L] <;> decide
  rw [hLh]
  simp only [Bool.false_eq_true, if_false]
  rw [takeDigitRun_render md Hm _ (hcolon _)]
  try dsimp only
  rw [if_neg (by simp [Lm])]
  simp only [Bool.false_eq_true, if_false]
  rw [takeDigitRun_render sd Hs _ (hsepc _)]
  try dsimp only
  rw [if_neg (by simp [Ls])]
  try simp only [Bool.false_eq_true, if_false]
  try dsimp only
  have hsepb : (decide (sep = '.') || decide (sep = ',')) = true := by
    rcases Hsep with h | h <;> subst h <;> decide
  rw [hsepb]
  simp only [if_true]
  rw [takeDigitRun_render_nil fd Hf]
  try dsimp only
  rw [if_neg (by rcases Lf with L | L <;> omega)]
  have htake : fd.take 3 = fd :=
    List.take_of_length_le (by rcases Lf with L | L <;> omega)
  have hdrop : fd.drop 3 = [] :=
    List.drop_eq_nil_of_le (by rcases Lf with L | L <;> omega)
  rw [htake, hdrop]
  simp


/-- SubRip round trip on the representable range. -/
theorem subrip_roundtrip_in_range (ms : Int) (h0 : 0 ≤ ms)
    (h1 : ms ≤ 359999999) :
    (timestampLongMatch (SubripFormat.ms_to_timestamp ms)).map
      (fun g => (timestamp_to_ms g.1 : Int)) = some ms := by
  have eMAX : ((SubripFormat.MAX_REPRESENTABLE_TIME : Nat) : Int) = 359999999 := by
    norm_num [SubripFormat.MAX_REPRESENTABLE_TIME, make_time]
  unfold SubripFormat.ms_to_timestamp
  rw [eMAX, if_neg (show ¬ ms < 0 by omega)]
  try dsimp only
  rw [if_neg (show ¬ ms > 359999999 by omega)]
  simp only [ms_to_times, renderPadded]
  try dsimp only
  have hh : ms.toNat / 3600000 < 100 := by omega
  have hm : ms.toNat % 3600000 / 60000 < 60 := by omega
  have hs : ms.toNat % 60000 / 1000 < 60 := by omega
  have hmsr : ms.toNat % 1000 < 1000 := by omega
  simp only [List.cons_append, List.append_assoc]
  rw [timestampLongMatch_render
    (padDigits 2 (ms.toNat / 3600000))
    (padDigits 2 (ms.toNat % 3600000 / 60000))
    (padDigits 2 (ms.toNat % 60000 / 1000))
    (padDigits 3 (ms.toNat % 1000)) ','
    (padDigits_lt_ten _ _) (padDigits_lt_ten _ _)
    (padDigits_lt_ten _ _) (padDigits_lt_ten _ _)
    (Or.inr (padDigits_length 2 (ms.toNat / 3600000)
      (by norm_num; omega) (by norm_num)))
    (padDigits_length 2 (ms.toNat % 3600000 / 60000)
      (by norm_num; omega) (by norm_num))
    (padDigits_length 2 (ms.toNat % 60000 / 1000)
      (by norm_num; omega) (by norm_num))
    (Or.inr (padDigits_length 3 (ms.toNat % 1000)
      (by norm_num; omega) (by norm_num)))
    (Or.inr rfl)]
  simp only [Option.map_some']
  unfold timestamp_to_ms
  simp only [padDigits_val,
    padDigits_length 3 (ms.toNat % 1000) (by norm_num; omega) (by norm_num)]
  norm_num
  omega

/-- SubStation round trip on the representable multiples of 10 ms. -/
theorem substation_roundtrip_mul10 (ms : Int) (h0 : 0 ≤ ms)
    (h1 : ms ≤ 35999990) (h10 : (10 : Int) ∣ ms) :
    (timestampLongMatch (SubstationFormat.ms_to_timestamp ms)).map
      (fun g => (timestamp_to_ms g.1 : Int)) = some ms := by
  have eMAX : ((SubstationFormat.MAX_REPRESENTABLE_TIME : Nat) : Int) = 35999990 := by
    norm_num [SubstationFormat.MAX_REPRESENTABLE_TIME, make_time]
  obtain ⟨k, hk⟩ := h10
  unfold SubstationFormat.ms_to_timestamp
  rw [eMAX, if_neg (show ¬ ms < 0 by omega)]
  try dsimp only
  rw [if_neg (show ¬ ms > 35999990 by omega)]
  simp only [ms_to_times, renderPadded]
  try dsimp only
  have hmod : ms.toNat % 10 = 0 := by omega
  have hcs : ((ms.toNat % 1000 + 5) - (ms.toNat % 1000 + 5) % 10) / 10 =
      ms.toNat % 1000 / 10 := by omega
  rw [hcs]
  have hh : ms.toNat / 3600000 < 10 := by omega
  have hcsb : ms.toNat % 1000 / 10 < 100 := by omega
  simp only [List.cons_append, List.append_assoc]
  rw [timestampLongMatch_render
    (padDigits 1 (ms.toNat / 3600000))
    (padDigits 2 (ms.toNat % 3600000 / 60000))
    (padDigits 2 (ms.toNat % 60000 / 1000))
    (padDigits 2 (ms.toNat % 1000 / 10)) '.'
    (padDigits_lt_ten _ _) (padDigits_lt_ten _ _)
    (padDigits_lt_ten _ _) (padDigits_lt_ten _ _)
    (Or.inl (padDigits_length 1 (ms.toNat / 3600000)
      (by norm_num; omega) (by norm_num)))
    (padDigits_length 2 (ms.toNat % 3600000 / 60000)
      (by norm_num; omega) (by norm_num))
    (padDigits_length 2 (ms.toNat % 60000 / 1000)
      (by norm_num; omega) (by norm_num))
    (Or.inl (padDigits_length 2 (ms.toNat % 1000 / 10)
      (by norm_num; omega) (by norm_num)))
    (Or.inl rfl)]
  simp only [Option.map_some']
  unfold timestamp_to_ms
  simp only [padDigits_val,
    padDigits_length 2 (ms.toNat % 1000 / 10) (by norm_num; omega) (by norm_num)]
  norm_num
  omega

/-- C4 (amended): the timestamp round trip is the identity on the SubRip
representable range; on the SubStation side it is the identity on the
representable multiples of 10 ms (SubStation text carries centiseconds);
values above each range clamp deterministically to the maximum; and negative
input clamps to zero, so -5 ms renders like 0 ms in both formats. -/
theorem C4_roundtrip_amended :
    (∀ ms : Int, 0 ≤ ms → ms ≤ (SubripFormat.MAX_REPRESENTABLE_TIME : Int) →
      (timestampLongMatch (SubripFormat.ms_to_timestamp ms)).map
        (fun g => (timestamp_to_ms g.1 : Int)) = some ms) ∧
    (∀ ms : Int, 0 ≤ ms → ms ≤ (SubstationFormat.MAX_REPRESENTABLE_TIME : Int) →
      (10 : Int) ∣ ms →
      (timestampLongMatch (SubstationFormat.ms_to_timestamp ms)).map
        (fun g => (timestamp_to_ms g.1 : Int)) = some ms) ∧
    (∀ ms : Int, (SubripFormat.MAX_REPRESENTABLE_TIME : Int) < ms →
      SubripFormat.ms_to_timestamp ms =
        SubripFormat.ms_to_timestamp (SubripFormat.MAX_REPRESENTABLE_TIME : Int)) ∧
    (∀ ms : Int, (SubstationFormat.MAX_REPRESENTABLE_TIME : Int) < ms →
      SubstationFormat.ms_to_timestamp ms =
        SubstationFormat.ms_to_timestamp (SubstationFormat.MAX_REPRESENTABLE_TIME : Int)) ∧
    SubripFormat.ms_to_timestamp (-5) = SubripFormat.ms_to_timestamp 0 ∧
    SubstationFormat.ms_to_timestamp (-5) = SubstationFormat.ms_to_timestamp 0 := by
  have eMAXr : ((SubripFormat.MAX_REPRESENTABLE_TIME : Nat) : Int) = 359999999 := by
    norm_num [SubripFormat.MAX_REPRESENTABLE_TIME, make_time]
  have eMAXs : ((SubstationFormat.MAX_REPRESENTABLE_TIME : Nat) : Int) = 35999990 := by
    norm_num [SubstationFormat.MAX_REPRESENTABLE_TIME, make_time]
  refine ⟨?_, ?_, ?_, ?_, by decide, by decide⟩
  · intro ms h0 h1
    exact subrip_roundtrip_in_range ms h0 (by rw [eMAXr] at h1; exact h1)
  · intro ms h0 h1 h10
    exact substation_roundtrip_mul10 ms h0 (by rw [eMAXs] at h1; exact h1) h10
  · intro ms h
    rw [eMAXr] at h
    unfold SubripFormat.ms_to_timestamp
    rw [eMAXr]
    rw [if_neg (show ¬ ms < 0 by omega)]
    try dsimp only
    rw [if_pos (show ms > 359999999 by omega)]
    rw [if_neg (show ¬ (359999999 : Int) < 0 by omega)]
    try dsimp only
    rw [if_neg (show ¬ (359999999 : Int) > 359999999 by omega)]
  · intro ms h
    rw [eMAXs] at h
    unfold SubstationFormat.ms_to_timestamp
    rw [eMAXs]
    rw [if_neg (show ¬ ms < 0 by omega)]
    try dsimp only
    rw [if_pos (show ms > 35999990 by omega)]
    rw [if_neg (show ¬ (35999990 : Int) < 0 by omega)]
    try dsimp only
    rw [if_neg (show ¬ (35999990 : Int) > 35999990 by omega)]

theorem C4_roundtrip_amended_witness :
    (0 : Int) ≤ 123456789 ∧ (123456789 : Int) ≤ (SubripFormat.MAX_REPRESENTABLE_TIME : Int) ∧
    (timestampLongMatch (SubripFormat.ms_to_timestamp 123456789)).map
      (fun g => (timestamp_to_ms g.1 : Int)) = some 123456789 ∧
    (timestampLongMatch (SubstationFormat.ms_to_timestamp 12345670)).map
      (fun g => (timestamp_to_ms g.1 : Int)) = some 12345670 ∧
    SubripFormat.ms_to_timestamp 400000000 =
      SubripFormat.ms_to_timestamp (SubripFormat.MAX_REPRESENTABLE_TIME : Int) ∧
    SubstationFormat.ms_to_timestamp 36000000 =
      SubstationFormat.ms_to_timestamp (SubstationFormat.MAX_REPRESENTABLE_TIME : Int) ∧
    SubripFormat.ms_to_timestamp (-5) = SubripFormat.ms_to_timestamp 0 :=
  ⟨by decide, by decide,
    C4_roundtrip_amended.1 123456789 (by decide) (by decide),
    C4_roundtrip_amended.2.1 12345670 (by decide) (by decide) (by decide),
    C4_roundtrip_amended.2.2.1 400000000 (by decide),
    C4_roundtrip_amended.2.2.2.1 36000000 (by decide),
    C4_roundtrip_amended.2.2.2.2.1⟩


/-! ## The override-tag engine computes a per-sequence fold (C3) -/

theorem dropWhile_length_le (p : Char -> Bool) :
    ∀ l : Bytes, (l.dropWhile p).length ≤ l.length := by
  intro l
  induction l with
  | nil => simp
  | cons c cs ih =>
      by_cases h : p c
      · simp only [List.dropWhile_cons, h, if_true]
        simp only [List.length_cons]
        omega
      · simp [List.dropWhile_cons, h]

/-- A matched override tag consumes at least two bytes. -/
theorem matchOverrideTag_consumes :
    ∀ (s tag rest : Bytes), matchOverrideTag s = some (tag, rest) →
      rest.length + 2 ≤ s.length := by
  intro s tag rest h
  match s with
  | [] => simp [matchOverrideTag] at h
  | [c0] => simp [matchOverrideTag] at h
  | c0 :: c :: r =>
      unfold matchOverrideTag at h
      try dsimp only at h
      by_cases h0 : c0 = '\\'
      case neg => rw [if_neg h0] at h; simp at h
      case pos =>
        rw [if_pos h0] at h
        by_cases h1 : (c = 'i' || c = 'b' || c = 'u' || c = 's' || c = 'p') = true
        · rw [if_pos h1] at h
          match r with
          | [] => simp at h
          | d :: rt =>
              try dsimp only at h
              by_cases hd : d.isDigit = true
              · rw [if_pos hd] at h
                simp only [Option.some.injEq, Prod.mk.injEq] at h
                rw [← h.2]
                simp only [List.length_cons]
                omega
              · rw [if_neg hd] at h; simp at h
        · rw [if_neg h1] at h
          by_cases h2 : c = 'r'
          · rw [if_pos h2] at h
            simp only [Option.some.injEq, Prod.mk.injEq] at h
            rw [← h.2]
            have := dropWhile_length_le isTagNameChar r
            simp only [List.length_cons]
            omega
          · rw [if_neg h2] at h; simp at h

theorem findTagsAux_congr :
    ∀ (n : Nat) (s f1 f2 : _), s.length = n → n ≤ f1 → n ≤ f2 →
      findTagsAux f1 s = findTagsAux f2 s := by
  intro n
  induction n using Nat.strong_induction_on with
  | _ n ih =>
      intro s f1 f2 hn h1 h2
      match s with
      | [] =>
          match f1, f2 with
          | 0, 0 => rfl
          | 0, g + 1 => simp [findTagsAux]
          | g + 1, 0 => simp [findTagsAux]
          | g1 + 1, g2 + 1 => simp [findTagsAux]
      | c :: cs =>
          have hlen : n = cs.length + 1 := by rw [← hn]; simp
          match f1, f2 with
          | 0, _ => omega
          | g1 + 1, 0 => omega
          | g1 + 1, g2 + 1 =>
              unfold findTagsAux
              try dsimp only
              cases hm : matchOverrideTag (c :: cs) with
              | some p =>
                  rcases p with ⟨tag, rest⟩
                  have hcons := matchOverrideTag_consumes (c :: cs) tag rest hm
                  simp only [List.length_cons] at hcons
                  simp only
                  rw [ih rest.length (by omega) rest g1 g2 rfl (by omega) (by omega)]
              | none =>
                  simp only
                  rw [ih cs.length (by omega) cs g1 g2 rfl (by omega) (by omega)]

theorem findTagsAux_eq_findTags (fuel : Nat) (s : Bytes) (h : s.length ≤ fuel) :
    findTagsAux fuel s = findTags s :=
  findTagsAux_congr s.length s fuel s.length rfl h (Nat.le_refl _)

theorem findTags_nil : findTags [] = [] := rfl

/-- One-step unfolding of the override-tag scan. -/
theorem findTags_cons (c : Char) (cs : Bytes) :
    findTags (c :: cs) =
      (match matchOverrideTag (c :: cs) with
       | some (tag, rest) => tag :: findTags rest
       | none => findTags cs) := by
  cases hm : matchOverrideTag (c :: cs) with
  | some p =>
      rcases p with ⟨tag, rest⟩
      have hcons := matchOverrideTag_consumes (c :: cs) tag rest hm
      simp only [List.length_cons] at hcons
      show findTagsAux (c :: cs).length (c :: cs) = _
      simp only [List.length_cons]
      unfold findTagsAux
      try dsimp only
      rw [hm]
      simp only
      rw [findTagsAux_eq_findTags cs.length rest (by omega)]
  | none =>
      show findTagsAux (c :: cs).length (c :: cs) = _
      simp only [List.length_cons]
      unfold findTagsAux
      try dsimp only
      rw [hm]
      rfl

theorem findClose_spec :
    ∀ (s body rest : Bytes), findClose s = some (body, rest) →
      s = body ++ '\x7d' :: rest ∧ '\x7d' ∉ body := by
  intro s
  induction s with
  | nil => intro body rest h; simp [findClose] at h
  | cons c cs ih =>
      intro body rest h
      unfold findClose at h
      by_cases hc : c = '\x7d'
      · rw [if_pos hc] at h
        simp only [Option.some.injEq, Prod.mk.injEq] at h
        rw [← h.1, ← h.2, hc]
        simp
      · rw [if_neg hc] at h
        cases hf : findClose cs with
        | none => rw [hf] at h; simp at h
        | some p =>
            rcases p with ⟨body2, rest2⟩
            rw [hf] at h
            simp only [Option.some.injEq, Prod.mk.injEq] at h
            have hspec := ih body2 rest2 hf
            rw [← h.1, ← h.2]
            constructor
            · simp [hspec.1]
            · intro hmem
              rcases List.mem_cons.1 hmem with h1 | h2
              · exact hc h1.symm
              · exact hspec.2 h2


theorem splitOvAux_congr :
    ∀ (n : Nat) (s : Bytes) (f1 f2 : Nat), s.length = n → n ≤ f1 → n ≤ f2 →
      splitOvAux f1 s = splitOvAux f2 s := by
  intro n
  induction n using Nat.strong_induction_on with
  | _ n ih =>
      intro s f1 f2 hn h1 h2
      match s with
      | [] =>
          match f1, f2 with
          | 0, 0 => rfl
          | 0, g + 1 => simp [splitOvAux]
          | g + 1, 0 => simp [splitOvAux]
          | g1 + 1, g2 + 1 => simp [splitOvAux]
      | c :: cs =>
          have hlen : n = cs.length + 1 := by rw [← hn]; simp
          match f1, f2 with
          | 0, _ => omega
          | g1 + 1, 0 => omega
          | g1 + 1, g2 + 1 =>
              unfold splitOvAux
              try dsimp only
              by_cases hc : c = '\x7b'
              · rw [if_pos hc, if_pos hc]
                cases hf : findClose cs with
                | some p =>
                    rcases p with ⟨body, rest⟩
                    have hspec := findClose_spec cs body rest hf
                    have hrl : rest.length + 1 ≤ cs.length := by
                      rw [hspec.1]
                      simp
                    simp only
                    rw [ih rest.length (by omega) rest g1 g2 rfl (by omega)
                      (by omega)]
                | none => simp only
              · rw [if_neg hc, if_neg hc]
                rw [ih cs.length (by omega) cs g1 g2 rfl (by omega) (by omega)]

theorem splitOvAux_eq_split (fuel : Nat) (s : Bytes) (h : s.length ≤ fuel) :
    splitOvAux fuel s = OVERRIDE_SEQUENCE_split s :=
  splitOvAux_congr s.length s fuel s.length rfl h (Nat.le_refl _)

theorem splitOv_nil : OVERRIDE_SEQUENCE_split [] = ([[]], []) := rfl

/-- One-step unfolding of the override-sequence split. -/
theorem splitOv_cons (c : Char) (cs : Bytes) :
    OVERRIDE_SEQUENCE_split (c :: cs) =
      (if c = '\x7b' then
        match findClose cs with
        | some (body, rest) =>
            (([] : Bytes) :: (OVERRIDE_SEQUENCE_split rest).1,
              ('\x7b' :: body ++ ['\x7d']) :: (OVERRIDE_SEQUENCE_split rest).2)
        | none => ([c :: cs], [])
      else
        match OVERRIDE_SEQUENCE_split cs with
        | (f :: fs, ovs) => ((c :: f) :: fs, ovs)
        | ([], ovs) => ([[c]], ovs)) := by
  show splitOvAux (c :: cs).length (c :: cs) = _
  simp only [List.length_cons]
  unfold splitOvAux
  try dsimp only
  by_cases hc : c = '\x7b'
  · rw [if_pos hc, if_pos hc]
    cases hf : findClose cs with
    | some p =>
        rcases p with ⟨body, rest⟩
        have hspec := findClose_spec cs body rest hf
        have hrl : rest.length + 1 ≤ cs.length := by
          rw [hspec.1]
          simp
        simp only
        rw [splitOvAux_eq_split cs.length rest (by omega)]
    | none => simp only
  · rw [if_neg hc, if_neg hc]
    rw [splitOvAux_eq_split cs.length cs (Nat.le_refl _)]

/-- The split always yields one more fragment than override sequences, and
every override sequence is well braced. -/
theorem splitOv_spec :
    ∀ (n : Nat) (s : Bytes), s.length = n →
      (OVERRIDE_SEQUENCE_split s).1.length =
        (OVERRIDE_SEQUENCE_split s).2.length + 1 ∧
      ∀ o ∈ (OVERRIDE_SEQUENCE_split s).2, WellBraced o := by
  intro n
  induction n using Nat.strong_induction_on with
  | _ n ih =>
      intro s hn
      match s with
      | [] => simp [splitOv_nil]
      | c :: cs =>
          have hlen : n = cs.length + 1 := by rw [← hn]; simp
          rw [splitOv_cons]
          by_cases hc : c = '\x7b'
          · rw [if_pos hc]
            cases hf : findClose cs with
            | some p =>
                rcases p with ⟨body, rest⟩
                have hspec := findClose_spec cs body rest hf
                have hrl : rest.length + 1 ≤ cs.length := by
                  rw [hspec.1]
                  simp
                have hres := ih rest.length (by omega) rest rfl
                simp only [List.length_cons]
                constructor
                · rw [hres.1]
                · intro o ho
                  rcases List.mem_cons.1 ho with h1 | h2
                  · exact ⟨body, h1, hspec.2⟩
                  · exact hres.2 o h2
            | none => simp
          · rw [if_neg hc]
            have hres := ih cs.length (by omega) cs rfl
            rcases hsplit : OVERRIDE_SEQUENCE_split cs with ⟨frags, ovs⟩
            rw [hsplit] at hres
            match frags, hres with
            | f :: fs, hres =>
                simp only at hres ⊢
                constructor
                · simp only [List.length_cons] at hres ⊢
                  omega
                · exact hres.2


theorem matchTag_head_ne (c : Char) (cs : Bytes) (h : ¬ c = '\\') :
    matchOverrideTag (c :: cs) = none := by
  match cs with
  | [] => rfl
  | x :: r =>
      unfold matchOverrideTag
      try dsimp only
      rw [if_neg h]

theorem takeWhile_append_stop (p : Char → Bool) (hp : p '\x7d' = false) :
    ∀ (u t : Bytes),
      List.takeWhile p (u ++ '\x7d' :: t) = List.takeWhile p u := by
  intro u t
  induction u with
  | nil => simp [List.takeWhile_cons, hp]
  | cons c u' ih =>
      by_cases hc : p c
      · simp [List.takeWhile_cons, hc, ih]
      · simp [List.takeWhile_cons, hc]

theorem dropWhile_append_stop (p : Char → Bool) (hp : p '\x7d' = false) :
    ∀ (u t : Bytes),
      List.dropWhile p (u ++ '\x7d' :: t) = List.dropWhile p u ++ '\x7d' :: t := by
  intro u t
  induction u with
  | nil => simp [List.dropWhile_cons, hp]
  | cons c u' ih =>
      by_cases hc : p c
      · simp [List.dropWhile_cons, hc, ih]
      · simp [List.dropWhile_cons, hc]

/-- A leftmost override-tag match never crosses a closing brace: on a string
whose first closing brace splits it as `u ++ \x7d :: t`, the match outcome and
the matched tag are independent of `t`, and a successful match leaves a
remainder still of the form `r ++ \x7d :: t` with `r` brace-free and shorter
than `u`. -/
theorem matchTag_pair :
    ∀ (u : Bytes), '\x7d' ∉ u → ∀ (t : Bytes),
      (matchOverrideTag (u ++ '\x7d' :: t) = none ∧
        matchOverrideTag (u ++ ['\x7d']) = none) ∨
      (∃ tag r, matchOverrideTag (u ++ '\x7d' :: t) = some (tag, r ++ '\x7d' :: t) ∧
        matchOverrideTag (u ++ ['\x7d']) = some (tag, r ++ ['\x7d']) ∧
        '\x7d' ∉ r ∧ r.length < u.length) := by
  intro u hu t
  match u with
  | [] =>
      exact Or.inl ⟨matchTag_head_ne '\x7d' t (by decide),
        matchTag_head_ne '\x7d' [] (by decide)⟩
  | [c0] =>
      by_cases h0 : c0 = '\\'
      · subst h0
        left
        constructor
        · simp only [List.cons_append, List.nil_append]
          unfold matchOverrideTag
          try dsimp only
          rw [if_pos rfl]
          simp only [Bool.or_eq_true, decide_eq_true_eq]
          rw [if_neg (by decide), if_neg (by decide)]
        · simp only [List.cons_append, List.nil_append]
          unfold matchOverrideTag
          try dsimp only
          rw [if_pos rfl]
          simp only [Bool.or_eq_true, decide_eq_true_eq]
          rw [if_neg (by decide), if_neg (by decide)]
      · exact Or.inl ⟨matchTag_head_ne c0 _ h0, matchTag_head_ne c0 _ h0⟩
  | c0 :: c1 :: u' =>
      have huu : '\x7d' ∉ u' := by
        intro h; exact hu (List.mem_cons_of_mem c0 (List.mem_cons_of_mem c1 h))
      by_cases h0 : c0 = '\\'
      · subst h0
        by_cases hib : (((c1 = 'i' ∨ c1 = 'b') ∨ c1 = 'u') ∨ c1 = 's') ∨ c1 = 'p'
        · -- three-byte tag branch: depends on the next character only
          match u' with
          | [] =>
              left
              constructor
              · simp only [List.cons_append, List.nil_append]
                unfold matchOverrideTag
                try dsimp only
                rw [if_pos rfl]
                simp only [Bool.or_eq_true, decide_eq_true_eq]
                rw [if_pos hib]
                try dsimp only
                rw [if_neg (by decide)]
              · simp only [List.cons_append, List.nil_append]
                unfold matchOverrideTag
                try dsimp only
                rw [if_pos rfl]
                simp only [Bool.or_eq_true, decide_eq_true_eq]
                rw [if_pos hib]
                try dsimp only
                rw [if_neg (by decide)]
          | d :: u'' =>
              have huuu : '\x7d' ∉ u'' := by
                intro h; exact huu (List.mem_cons_of_mem d h)
              by_cases hd : d.isDigit
              · right
                refine ⟨['\\', c1, d], u'', ?_, ?_, huuu,
                  by simp only [List.length_cons]; omega⟩
                · simp only [List.cons_append, List.nil_append]
                  unfold matchOverrideTag
                  try dsimp only
                  rw [if_pos rfl]
                  simp only [Bool.or_eq_true, decide_eq_true_eq]
                  rw [if_pos hib]
                  try dsimp only
                  rw [if_pos hd]
                · simp only [List.cons_append, List.nil_append]
                  unfold matchOverrideTag
                  try dsimp only
                  rw [if_pos rfl]
                  simp only [Bool.or_eq_true, decide_eq_true_eq]
                  rw [if_pos hib]
                  try dsimp only
                  rw [if_pos hd]
              · left
                constructor
                · simp only [List.cons_append, List.nil_append]
                  unfold matchOverrideTag
                  try dsimp only
                  rw [if_pos rfl]
                  simp only [Bool.or_eq_true, decide_eq_true_eq]
                  rw [if_pos hib]
                  try dsimp only
                  rw [if_neg hd]
                · simp only [List.cons_append, List.nil_append]
                  unfold matchOverrideTag
                  try dsimp only
                  rw [if_pos rfl]
                  simp only [Bool.or_eq_true, decide_eq_true_eq]
                  rw [if_pos hib]
                  try dsimp only
                  rw [if_neg hd]
        · by_cases hr : c1 = 'r'
          · -- style-reset tag: the name run stops at the closing brace
            subst hr
            right
            have hdw : (List.dropWhile isTagNameChar u').length ≤ u'.length :=
              List.Sublist.length_le (List.dropWhile_sublist isTagNameChar)
            refine ⟨'\\' :: 'r' :: List.takeWhile isTagNameChar u',
              List.dropWhile isTagNameChar u', ?_, ?_, ?_, ?_⟩
            · simp only [List.cons_append, List.nil_append]
              unfold matchOverrideTag
              try dsimp only
              rw [if_pos rfl]
              simp only [Bool.or_eq_true, decide_eq_true_eq]
              rw [if_neg hib, if_pos trivial]
              rw [takeWhile_append_stop isTagNameChar (by decide) u' t,
                dropWhile_append_stop isTagNameChar (by decide) u' t]
            · simp only [List.cons_append, List.nil_append]
              unfold matchOverrideTag
              try dsimp only
              rw [if_pos rfl]
              simp only [Bool.or_eq_true, decide_eq_true_eq]
              rw [if_neg hib, if_pos trivial]
              rw [takeWhile_append_stop isTagNameChar (by decide) u' [],
                dropWhile_append_stop isTagNameChar (by decide) u' []]
            · intro h
              exact huu ((List.dropWhile_sublist isTagNameChar).subset h)
            · simp only [List.length_cons]
              omega
          · left
            constructor
            · simp only [List.cons_append, List.nil_append]
              unfold matchOverrideTag
              try dsimp only
              rw [if_pos rfl]
              simp only [Bool.or_eq_true, decide_eq_true_eq]
              rw [if_neg hib, if_neg hr]
            · simp only [List.cons_append, List.nil_append]
              unfold matchOverrideTag
              try dsimp only
              rw [if_pos rfl]
              simp only [Bool.or_eq_true, decide_eq_true_eq]
              rw [if_neg hib, if_neg hr]
      · exact Or.inl ⟨matchTag_head_ne c0 _ h0, matchTag_head_ne c0 _ h0⟩


/-- Scanning for override tags stops cleanly at the first closing brace: the
tags found in `u ++ \x7d :: t` are those found in `u ++ [\x7d]` followed by
those found in `t`. -/
theorem findTags_mid :
    ∀ (n : Nat) (u : Bytes), u.length = n → '\x7d' ∉ u → ∀ (t : Bytes),
      findTags (u ++ '\x7d' :: t) = findTags (u ++ ['\x7d']) ++ findTags t := by
  intro n
  induction n using Nat.strong_induction_on with
  | _ n ih =>
      intro u hn hu t
      rcases matchTag_pair u hu t with ⟨h1, h2⟩ | ⟨tag, r, h1, h2, hr, hlen⟩
      · match u with
        | [] =>
            simp only [List.nil_append] at h1 h2 ⊢
            rw [findTags_cons '\x7d' t, h1]
            rfl
        | c :: u' =>
            have huu : '\x7d' ∉ u' := by
              intro h; exact hu (List.mem_cons_of_mem c h)
            simp only [List.cons_append] at h1 h2 ⊢
            rw [findTags_cons c (u' ++ '\x7d' :: t), h1,
              findTags_cons c (u' ++ ['\x7d']), h2]
            exact ih u'.length (by simp [← hn]) u' rfl huu t
      · match u with
        | [] =>
            simp only [List.length_nil] at hlen
            omega
        | c :: u' =>
            simp only [List.cons_append] at h1 h2 ⊢
            rw [findTags_cons c (u' ++ '\x7d' :: t), h1,
              findTags_cons c (u' ++ ['\x7d']), h2]
            have := ih r.length (by omega) r rfl hr t
            simp only [List.cons_append, this]

/-- Appending after a complete brace-enclosed override sequence decomposes
the tag scan. -/
theorem findTags_wellBraced (o t : Bytes) (h : WellBraced o) :
    findTags (o ++ t) = findTags o ++ findTags t := by
  obtain ⟨body, ho, hb⟩ := h
  subst ho
  have e1 : ('\x7b' :: body ++ ['\x7d']) ++ t = '\x7b' :: (body ++ '\x7d' :: t) := by
    simp
  have e2 : '\x7b' :: body ++ ['\x7d'] = '\x7b' :: (body ++ ['\x7d']) := by simp
  rw [e1, findTags_cons '\x7b' (body ++ '\x7d' :: t),
    matchTag_head_ne '\x7b' _ (by decide), e2,
    findTags_cons '\x7b' (body ++ ['\x7d']),
    matchTag_head_ne '\x7b' _ (by decide)]
  exact findTags_mid body.length body rfl hb t

/-- The tags of a concatenation of well-braced override sequences are the
concatenation of the tags of each sequence. -/
theorem findTags_flatten :
    ∀ (ovs : List Bytes), (∀ o ∈ ovs, WellBraced o) →
      findTags ovs.flatten = (ovs.map findTags).flatten := by
  intro ovs
  induction ovs with
  | nil => intro _; rfl
  | cons o ovs ih =>
      intro h
      simp only [List.flatten_cons, List.map_cons]
      rw [findTags_wellBraced o ovs.flatten (h o (List.mem_cons_self o ovs)),
        ih (fun x hx => h x (List.mem_cons_of_mem o hx))]


/-- C3: for every text containing N >= 1 override sequences, `parse_tags`
returns N + 1 fragment/style pairs, and the style of fragment i is the
left-to-right fold of the tags of the override sequences with index < i,
restarted from a fresh copy of the base style; within the fold a bare
`\r` resets to the base style and `\r<name>` resets to the named style when
present, leaving the accumulated style otherwise (per `applyOverrideTag`). -/
theorem C3_parse_tags_fold (text : Bytes) (base : SSAStyle)
    (styles : List (Bytes × SSAStyle))
    (hN : 1 ≤ (OVERRIDE_SEQUENCE_split text).2.length) :
    (parse_tags text base styles).length =
      (OVERRIDE_SEQUENCE_split text).2.length + 1 ∧
    parse_tags text base styles =
      (OVERRIDE_SEQUENCE_split text).1.zip
        ((List.range ((OVERRIDE_SEQUENCE_split text).2.length + 1)).map
          (fun i => List.foldl (applyOverrideTag base styles) base
            ((((OVERRIDE_SEQUENCE_split text).2.take i).map findTags).flatten))) := by
  have hspec := splitOv_spec text.length text rfl
  have hlen1 := hspec.1
  have hwb := hspec.2
  have hne : ¬ (OVERRIDE_SEQUENCE_split text).1.length = 1 := by omega
  have hpt : parse_tags text base styles =
      (OVERRIDE_SEQUENCE_split text).1.zip
        (((List.range ((OVERRIDE_SEQUENCE_split text).2.length + 1)).map
          (fun i => ((OVERRIDE_SEQUENCE_split text).2.take i).flatten)).map
          (apply_overrides base styles)) := by
    unfold parse_tags
    try dsimp only
    rw [if_neg hne]
  have hfun : (apply_overrides base styles ∘
        fun i => (((OVERRIDE_SEQUENCE_split text).2.take i).flatten : Bytes))
      = (fun i => List.foldl (applyOverrideTag base styles) base
          ((((OVERRIDE_SEQUENCE_split text).2.take i).map findTags).flatten)) := by
    funext i
    show apply_overrides base styles
        (((OVERRIDE_SEQUENCE_split text).2.take i).flatten) = _
    unfold apply_overrides
    rw [findTags_flatten ((OVERRIDE_SEQUENCE_split text).2.take i)
      (fun o ho => hwb o (List.take_subset i _ ho))]
  have heq : parse_tags text base styles =
      (OVERRIDE_SEQUENCE_split text).1.zip
        ((List.range ((OVERRIDE_SEQUENCE_split text).2.length + 1)).map
          (fun i => List.foldl (applyOverrideTag base styles) base
            ((((OVERRIDE_SEQUENCE_split text).2.take i).map findTags).flatten))) := by
    rw [hpt, List.map_map, hfun]
  refine ⟨?_, heq⟩
  rw [heq]
  simp [List.length_zip, hlen1]

/-- Witness for C3 on the text `{\i1}a{\i0}b`, which has two override
sequences. -/
theorem C3_parse_tags_fold_witness :
    1 ≤ (OVERRIDE_SEQUENCE_split (("\x7b\\i1\x7da\x7b\\i0\x7db").data)).2.length ∧
    ((parse_tags (("\x7b\\i1\x7da\x7b\\i0\x7db").data) SSAStyle.DEFAULT_STYLE []).length =
      (OVERRIDE_SEQUENCE_split (("\x7b\\i1\x7da\x7b\\i0\x7db").data)).2.length + 1 ∧
    parse_tags (("\x7b\\i1\x7da\x7b\\i0\x7db").data) SSAStyle.DEFAULT_STYLE [] =
      (OVERRIDE_SEQUENCE_split (("\x7b\\i1\x7da\x7b\\i0\x7db").data)).1.zip
        ((List.range ((OVERRIDE_SEQUENCE_split (("\x7b\\i1\x7da\x7b\\i0\x7db").data)).2.length + 1)).map
          (fun i => List.foldl
            (applyOverrideTag SSAStyle.DEFAULT_STYLE []) SSAStyle.DEFAULT_STYLE
            ((((OVERRIDE_SEQUENCE_split (("\x7b\\i1\x7da\x7b\\i0\x7db").data)).2.take i).map
              findTags).flatten)))) :=
  ⟨by decide, C3_parse_tags_fold (("\x7b\\i1\x7da\x7b\\i0\x7db").data)
    SSAStyle.DEFAULT_STYLE [] (by decide)⟩

end pysubs2
